import Mathlib

/-!
# Max72xxPanel: pixel addressing, framebuffer and serial framing

A shallow embedding of `Max72xxPanel.cpp` / `Max72xxPanel.h`.

Conventions of the embedding

* `int16_t` values are `Int`, truncated with `wrap16` wherever the C++ code stores into an
  `int16_t`; `byte` values are `Nat`, truncated with `wrap8` wherever the code stores into a
  `byte`.
* The three heap arrays (`bitmap`, `matrixPosition`, `matrixRotation`) are lists of bytes.
  An access outside an array is undefined behaviour in C++; the embedding reads `0` there and
  drops such a write. Every theorem about pixel access comes with the bounds that exclude it.
* The serial bus is a log of events appended to the state (`bus`).
* The `do ... while` loop of `spiTransfer` runs on a wrapping 8-bit counter; its embedding takes
  fuel and answers `none` when the fuel is exhausted.
-/

namespace Max72xxPanel

/-! ## Machine integers -/

/-- Truncation of an integer to `int16_t` (two's complement). -/
def wrap16 (i : Int) : Int := (i + 32768) % 65536 - 32768

/-- Truncation of an integer to `byte` (`uint8_t`). -/
def wrap8 (i : Int) : Nat := (i % 256).toNat

/-! ## Opcodes of the MAX7219 / MAX7221 -/

def OP_NOOP : Nat := 0
def OP_DIGIT0 : Nat := 1
def OP_DIGIT1 : Nat := 2
def OP_DIGIT2 : Nat := 3
def OP_DIGIT3 : Nat := 4
def OP_DIGIT4 : Nat := 5
def OP_DIGIT5 : Nat := 6
def OP_DIGIT6 : Nat := 7
def OP_DIGIT7 : Nat := 8
def OP_DECODEMODE : Nat := 9
def OP_INTENSITY : Nat := 10
def OP_SCANLIMIT : Nat := 11
def OP_SHUTDOWN : Nat := 12
def OP_DISPLAYTEST : Nat := 15

/-! ## State -/

/-- One event on the serial bus: the chip-select line driven low or high
(`digitalWrite(SPI_CS, LOW/HIGH)`), or one byte shifted out (`SPI.transfer`). -/
inductive BusEvent where
  | csLow : BusEvent
  | csHigh : BusEvent
  | transfer : Nat → BusEvent
  deriving DecidableEq

/-- Modelled from the spec: the declaration of `clipRegion` is absent from the header. The
spec's data model gives it four fields (xMin, yMin, xMax, yMax) with the sentinel `xMin = -1`
for "no clipping"; the fields are signed integers that hold the values `clip` is given. -/
structure ClipRegion where
  xMin : Int
  yMin : Int
  xMax : Int
  yMax : Int
  deriving DecidableEq

/-- The object state: the members of `Max72xxPanel`, the members it inherits from the
graphics base class (`WIDTH`, `HEIGHT`, `_width`, `_height`, `rotation`), the translation
offset and the clip region used by `drawPixel`, the focused line (`int focusedLine`), and the
log of bus events. -/
structure State where
  SPI_CS : Nat
  bitmap : List Nat
  bitmapSize : Nat
  hDisplays : Nat
  matrixPosition : List Nat
  matrixRotation : List Nat
  WIDTH : Nat
  HEIGHT : Nat
  _width : Nat
  _height : Nat
  rotation : Nat
  clipRegion : ClipRegion
  _tx : Int
  _ty : Int
  focusedLine : Int
  bus : List BusEvent
  deriving DecidableEq

/-! ## Clipping -/

/-- The method `Max72xxPanel::resetClip`. -/
def resetClip (s : State) : State :=
  { s with clipRegion := { s.clipRegion with xMin := -1 } }

/-- The method `Max72xxPanel::clip`; the four arguments are `uint16_t`. -/
def clip (s : State) (xMin yMin xMax yMax : Nat) : State :=
  if xMin ≥ xMax ∨ yMin ≥ yMax ∨ xMin ≥ s._width ∨ yMin ≥ s._height then
    resetClip s
  else
    { s with clipRegion := { xMin := xMin, yMin := yMin, xMax := xMax, yMax := yMax } }

/-! ## Configuration -/

/-- The method `Max72xxPanel::setPosition`: `matrixPosition[x + hDisplays * y] = display`. -/
def setPosition (s : State) (display x y : Nat) : State :=
  { s with matrixPosition := s.matrixPosition.set (x + s.hDisplays * y) display }

/-- The method `Max72xxPanel::setRotation(byte display, byte rotation)`. -/
def setModuleRotation (s : State) (display rotation : Nat) : State :=
  { s with matrixRotation := s.matrixRotation.set display rotation }

/-- The method `Max72xxPanel::setRotation(uint8_t rotation)`, which delegates to the graphics base class:
the rotation is reduced to two bits and the canvas dimensions are exchanged for the odd
quarter turns. -/
def setRotation (s : State) (rotation : Nat) : State :=
  let r := rotation % 4
  if r % 2 = 1 then { s with rotation := r, _width := s.HEIGHT, _height := s.WIDTH }
  else { s with rotation := r, _width := s.WIDTH, _height := s.HEIGHT }

/-! ## Pixel addressing -/

/-- Lines 220-233 of `byteForPixel`: the canvas rotation, on `x : int16_t` and `y : byte`.
The swap goes through `byte tmp`, so `x` is truncated to a byte on its way into `y`. -/
def canvasRotate (rotation _width _height : Nat) (x : Int) (y : Nat) : Int × Nat :=
  if rotation ≠ 0 then
    let x1 : Int := if rotation ≥ 2 then wrap16 ((_width : Int) - 1 - x) else x
    let y1 : Nat := if rotation = 1 ∨ rotation = 2 then wrap8 ((_height : Int) - 1 - y) else y
    if rotation % 2 = 1 then ((y1 : Int), wrap8 x1) else (x1, y1)
  else (x, y)

/-- Lines 247-256 of `byteForPixel`: the rotation `r` of one module applied to the local
coordinates, both in `0..7`. -/
def moduleRotate (r x y : Nat) : Nat × Nat :=
  let x1 := if r ≥ 2 then 7 - x else x
  let y1 := if r = 1 ∨ r = 2 then 7 - y else y
  if r % 2 = 1 then (y1, x1) else (x1, y1)

/-- The index `(x >> 3) + hDisplays * (y >> 3)` at which `byteForPixel` reads `matrixPosition`,
for coordinates that passed the bounds check. -/
def gridSlot (hDisplays x y : Nat) : Nat := x / 8 + hDisplays * (y / 8)

/-- The method `Max72xxPanel::byteForPixel`. The result is `none` for the null pointer, and otherwise the
offset of the returned pointer from `bitmap` together with the final value of the out
parameter `y` (whose low three bits are the bit position). After the bounds check both
coordinates are non-negative, so `>> 3` and `& 0b111` are `/ 8` and `% 8`. -/
def byteForPixel (s : State) (xx yy : Int) : Option (Nat × Nat) :=
  let p := canvasRotate s.rotation s._width s._height xx (wrap8 yy)
  if p.1 < 0 ∨ p.1 ≥ (s.WIDTH : Int) ∨ (p.2 : Int) < 0 ∨ (p.2 : Int) ≥ (s.HEIGHT : Int) then
    none
  else
    let x := p.1.toNat
    let y := p.2
    let display := s.matrixPosition.getD (gridSlot s.hDisplays x y) 0
    let r := s.matrixRotation.getD display 0
    let q := moduleRotate r (x % 8) (y % 8)
    let d := display / s.hDisplays
    let x2 := q.1 + (display - d * s.hDisplays) * 8
    let y2 := wrap8 ((q.2 : Int) + ((d * 8 : Nat) : Int))
    some (x2 + s.WIDTH * (y2 / 8), y2)

/-! ## Pixel access -/

/-- The method `Max72xxPanel::fillScreen`: `memset(bitmap, color ? 0xff : 0, bitmapSize)`. -/
def fillScreen (s : State) (color : Nat) : State :=
  { s with bitmap :=
      List.replicate (min s.bitmapSize s.bitmap.length) (if color ≠ 0 then 0xff else 0)
        ++ s.bitmap.drop s.bitmapSize }

/-- The method `Max72xxPanel::drawPixel`. The coordinates are `int16_t`, the color is `uint16_t`.
`*ptr &= ~val` on a byte clears the bit of `val`, which is `&&& (255 ^^^ val)`. -/
def drawPixel (s : State) (xx yy : Int) (color : Nat) : State :=
  let xx := wrap16 (xx + s._tx)
  let yy := wrap16 (yy + s._ty)
  if s.clipRegion.xMin ≥ 0 ∧
      (xx < s.clipRegion.xMin ∨ xx > s.clipRegion.xMax ∨
       yy < s.clipRegion.yMin ∨ yy > s.clipRegion.yMax) then s
  else
    match byteForPixel s xx yy with
    | none => s
    | some (off, offestInByte) =>
      let val := 1 <<< (offestInByte &&& 7)
      if color ≠ 0 then
        { s with bitmap := s.bitmap.set off (s.bitmap.getD off 0 ||| val) }
      else
        { s with bitmap := s.bitmap.set off (s.bitmap.getD off 0 &&& (255 ^^^ val)) }

/-- The method `Max72xxPanel::readPixel`. -/
def readPixel (s : State) (xx yy : Int) : Nat :=
  match byteForPixel s xx yy with
  | none => 0
  | some (off, offestInByte) =>
    let mask := 1 <<< (offestInByte &&& 7)
    if s.bitmap.getD off 0 &&& mask ≠ 0 then 1 else 0

/-! ## Serial transfer -/

/-- The body of the `do ... while ( start > end )` loop of `spiTransfer`, with `start` and
`end` unsigned 8-bit. The result is the list of bytes handed to `SPI.transfer`, or `none`
when the fuel runs out. -/
def spiLoop (opcode data : Nat) (bitmap : List Nat) (end_ : Nat) : Nat → Nat → Option (List BusEvent)
  | 0, _ => none
  | fuel + 1, start =>
    let start1 := wrap8 ((start : Int) - 8)
    let out := [BusEvent.transfer opcode,
      BusEvent.transfer (if opcode ≤ OP_DIGIT7 then bitmap.getD start1 0 else data)]
    if start1 > end_ then (spiLoop opcode data bitmap end_ fuel start1).map (fun l => out ++ l)
    else some out

/-- The fuel given to the transfer loop. The counter `start` takes at most 32 values (it moves
in steps of 8 modulo 256) and the exit test looks at `start` alone, so a loop that has not
left after 32 rounds never leaves. -/
def spiFuel : Nat := 32

/-- The method `Max72xxPanel::spiTransfer(byte opcode, byte data)`. -/
def spiTransfer (s : State) (opcode data : Nat) : Option State :=
  let end_ := wrap8 ((opcode : Int) - (OP_DIGIT0 : Int))
  let start := wrap8 ((s.bitmapSize : Int) + (end_ : Int))
  match spiLoop opcode data s.bitmap end_ spiFuel start with
  | none => none
  | some l => some { s with bus := s.bus ++ [BusEvent.csLow] ++ l ++ [BusEvent.csHigh] }

/-- The loop of `Max72xxPanel::write`: `for (byte row = ...; row >= OP_DIGIT0; row--)`. -/
def writeLoop : Nat → State → Option State
  | 0, s => some s
  | row + 1, s => (spiTransfer s (row + 1) 0).bind (writeLoop row)

/-- The method `Max72xxPanel::write`. -/
def write (s : State) : Option State := writeLoop OP_DIGIT7 s

/-- The method `Max72xxPanel::shutdown`. -/
def shutdown (s : State) (b : Bool) : Option State :=
  if b then spiTransfer s OP_SHUTDOWN 0
  else
    (((spiTransfer s OP_DISPLAYTEST 0).bind
      (fun s => spiTransfer s OP_SCANLIMIT 7)).bind
      (fun s => spiTransfer s OP_DECODEMODE 0)).bind
      (fun s => spiTransfer s OP_SHUTDOWN 1)

/-- The method `Max72xxPanel::setIntensity`. -/
def setIntensity (s : State) (intensity : Nat) : Option State :=
  spiTransfer s OP_INTENSITY intensity

/-- The method `Max72xxPanel::reset`. -/
def reset (s : State) : Option State :=
  (((((spiTransfer (fillScreen s 0) OP_DISPLAYTEST 0).bind
    (fun s => spiTransfer s OP_SCANLIMIT 7)).bind
    (fun s => spiTransfer s OP_DECODEMODE 0)).bind
    write).bind
    (fun s => shutdown s false)).bind
    (fun s => setIntensity s 7)

/-- The state at the end of the member initialisation of the constructor (lines 37-54): the
three arrays are allocated, the tables are filled with the identity and zero, clipping is
reset. The contents of the freshly allocated bitmap are `mem`; the three fields of the clip
region that the constructor leaves uninitialised are taken as 0, and so is `_tx`, which like
`_ty` starts at 0; `focusedLine` starts at `NoFocus`. -/
def constructInit (csPin hDisplays vDisplays : Nat) (mem : Nat → Nat) : State :=
  let displays := wrap8 ((hDisplays * vDisplays : Nat) : Int)
  let bitmapSize := wrap8 ((displays * 8 : Nat) : Int)
  resetClip
    { SPI_CS := csPin
      bitmap := (List.range bitmapSize).map mem
      bitmapSize := bitmapSize
      hDisplays := hDisplays
      matrixPosition := List.range displays
      matrixRotation := List.replicate displays 0
      WIDTH := hDisplays * 8
      HEIGHT := vDisplays * 8
      _width := hDisplays * 8
      _height := vDisplays * 8
      rotation := 0
      clipRegion := { xMin := 0, yMin := 0, xMax := 0, yMax := 0 }
      _tx := 0
      _ty := 0
      focusedLine := -1
      bus := [] }

/-- The constructor `Max72xxPanel::Max72xxPanel(byte csPin, byte hDisplays, byte vDisplays)`. -/
def construct (csPin hDisplays vDisplays : Nat) (mem : Nat → Nat) : Option State :=
  (((((spiTransfer (fillScreen (constructInit csPin hDisplays vDisplays mem) 0) OP_DISPLAYTEST 0).bind
    (fun s => spiTransfer s OP_SCANLIMIT 7)).bind
    (fun s => spiTransfer s OP_DECODEMODE 0)).bind
    write).bind
    (fun s => shutdown s false)).bind
    (fun s => setIntensity s 7)

/-! ## Focus -/

/-- The constant `Max72xxPanel::NoFocus`. -/
def NoFocus : Int := -1

/-- The method `Max72xxPanel::currentFocusedLine`. -/
def currentFocusedLine (s : State) : Int := s.focusedLine

/-- The method `Max72xxPanel::focusedHeight`:
`focusedLine == NoFocus ? _height : 8`. -/
def focusedHeight (s : State) : Int :=
  if s.focusedLine = NoFocus then (s._height : Int) else 8

/-- Modelled from the spec: `focusOnLine` is declared in the header and its body is missing
from the sources. The spec has it set the focused module row and adjust the vertical
translation offset so that the row's 8 pixels are addressed as if they were the whole canvas,
with the sentinel -1 for no focus: the focused line is stored, and `_ty` becomes `8 * line`,
or 0 when the focus is removed. -/
def focusOnLine (s : State) (line : Int) : State :=
  { s with focusedLine := line, _ty := if line = NoFocus then 0 else 8 * line }

/-- Modelled from the spec: `swapFocus` is declared in the header and its body is missing from
the sources. The spec has it set the new focused line and return the previously focused
one. -/
def swapFocus (s : State) (line : Int) : Int × State :=
  (s.focusedLine, focusOnLine s line)

/-! ## Configurations, closed forms and the words of the spec -/

/-- A state as the constructor and the configuration calls leave it, for a grid of `h` by `v`
modules: at least one and at most 31 modules, the three arrays of the sizes the constructor
allocates, the physical dimensions `8h` by `8v`, a canvas rotation in `0..3` and the
canvas dimensions exchanged for the odd rotations. -/
structure Configured (s : State) (h v : Nat) : Prop where
  grid_pos : 1 ≤ h * v
  grid_le : h * v ≤ 31
  hDisplays_eq : s.hDisplays = h
  WIDTH_eq : s.WIDTH = 8 * h
  HEIGHT_eq : s.HEIGHT = 8 * v
  bitmapSize_eq : s.bitmapSize = 8 * (h * v)
  bitmap_len : s.bitmap.length = 8 * (h * v)
  position_len : s.matrixPosition.length = h * v
  rotation_len : s.matrixRotation.length = h * v
  rotation_lt : s.rotation < 4
  width_eq : s._width = if s.rotation % 2 = 1 then s.HEIGHT else s.WIDTH
  height_eq : s._height = if s.rotation % 2 = 1 then s.WIDTH else s.HEIGHT

/-- The physical coordinates of the canvas pixel `(x, y)`: the canvas rotation on natural
numbers, without truncation. -/
def physical (s : State) (x y : Nat) : Nat × Nat :=
  if s.rotation = 0 then (x, y)
  else if s.rotation = 1 then (s._height - 1 - y, x)
  else if s.rotation = 2 then (s._width - 1 - x, s._height - 1 - y)
  else (y, s._width - 1 - x)

/-- The chain index of the module that holds the physical pixel `(x, y)`. -/
def chainIndex (s : State) (x y : Nat) : Nat :=
  s.matrixPosition.getD (gridSlot s.hDisplays x y) 0

/-- The local coordinates of the physical pixel `(x, y)` after the rotation of its module. -/
def localXY (s : State) (x y : Nat) : Nat × Nat :=
  moduleRotate (s.matrixRotation.getD (chainIndex s x y) 0) (x % 8) (y % 8)

/-- The byte offset and the value of the out parameter `y` for the canvas pixel `(x, y)`, in
closed form: module `c` owns the bytes `8c .. 8c+7`. -/
def address (s : State) (x y : Nat) : Nat × Nat :=
  let p := physical s x y
  let c := chainIndex s p.1 p.2
  let q := localXY s p.1 p.2
  (8 * c + q.1, 8 * (c / s.hDisplays) + q.2)

/-- A 2 by 1 grid (canvas 16 by 8) in the default configuration with a cleared bitmap. -/
def demo21 : State := fillScreen (constructInit 10 2 1 (fun _ => 0)) 0

/-- The map of claim C2: the canvas pixel `(x, y)` to the byte offset that `byteForPixel`
returns and the bit index `y & 7` of its out parameter. -/
def pixelBit (s : State) (xx yy : Int) : Option (Nat × Nat) :=
  (byteForPixel s xx yy).map (fun p => (p.1, p.2 &&& 7))

/-- The data byte that `spiTransfer` sends with `opcode` when its counter `start` has the value
`idx`: the bitmap byte for a row opcode, the argument `data` for a control opcode. -/
def transferData (opcode data : Nat) (bitmap : List Nat) (idx : Nat) : Nat :=
  if opcode ≤ OP_DIGIT7 then bitmap.getD idx 0 else data

/-- One transfer burst in the words of the spec: chip-select low, then one (opcode, data)
pair for each of the `n` devices, then chip-select high; `dataOf k` is the data of the `k`-th
pair sent. -/
def burst (opcode : Nat) (dataOf : Nat → Nat) (n : Nat) : List BusEvent :=
  [BusEvent.csLow] ++
    (List.range n).flatMap (fun k => [BusEvent.transfer opcode, BusEvent.transfer (dataOf k)]) ++
    [BusEvent.csHigh]

/-- The burst of a row opcode in the words of the spec: the `k`-th pair carries
`bitmap[8 * (n - 1 - k) + (op - 1)]`, the byte of the last chain index first. -/
def rowBurst (bitmap : List Nat) (n op : Nat) : List BusEvent :=
  burst op (fun k => bitmap.getD (8 * (n - 1 - k) + (op - 1)) 0) n

/-- The burst of a control opcode in the words of the spec: the same pair for every device. -/
def controlBurst (n op data : Nat) : List BusEvent :=
  burst op (fun _ => data) n

/-- The bus traffic of `write()` in the words of the spec: eight bursts, for the opcodes
DIGIT7 down to DIGIT0. -/
def writeFrames (bitmap : List Nat) (n : Nat) : List BusEvent :=
  [8, 7, 6, 5, 4, 3, 2, 1].flatMap (rowBurst bitmap n)

/-- A chain of 31 modules in a row, the longest the 8-bit `bitmapSize` can hold. -/
def demo31x1 : State := fillScreen (constructInit 10 31 1 (fun _ => 0)) 0

/-- A chain of 3 modules in a row. -/
def demo3x1 : State := fillScreen (constructInit 10 3 1 (fun _ => 0)) 0

/-- The public operations that work on the buffer, with their arguments. -/
inductive Op where
  | drawPixel (x y : Int) (color : Nat) : Op
  | fillScreen (color : Nat) : Op
  | clip (xMin yMin xMax yMax : Nat) : Op
  | resetClip : Op
  | setPosition (display x y : Nat) : Op
  | setModuleRotation (display rotation : Nat) : Op
  | setRotation (rotation : Nat) : Op
  | shutdown (b : Bool) : Op
  | setIntensity (intensity : Nat) : Op
  | write : Op
  | reset : Op

/-- One call of a public operation. -/
def Op.run : Op → State → Option State
  | .drawPixel x y color, s => some (Max72xxPanel.drawPixel s x y color)
  | .fillScreen color, s => some (Max72xxPanel.fillScreen s color)
  | .clip a b c d, s => some (Max72xxPanel.clip s a b c d)
  | .resetClip, s => some (Max72xxPanel.resetClip s)
  | .setPosition d x y, s => some (Max72xxPanel.setPosition s d x y)
  | .setModuleRotation d r, s => some (Max72xxPanel.setModuleRotation s d r)
  | .setRotation r, s => some (Max72xxPanel.setRotation s r)
  | .shutdown b, s => Max72xxPanel.shutdown s b
  | .setIntensity i, s => Max72xxPanel.setIntensity s i
  | .write, s => Max72xxPanel.write s
  | .reset, s => Max72xxPanel.reset s

/-- The buffer of `t` has the size of the buffer of `s`: the same `bitmapSize` and a bitmap of
the same length. -/
def SameBuffer (s t : State) : Prop :=
  t.bitmapSize = s.bitmapSize ∧ t.bitmap.length = s.bitmap.length

/-- The function `f` returns on every state whose `bitmapSize` is a multiple of 8, and keeps the
size of the buffer. -/
def Runs (f : State → Option State) : Prop :=
  ∀ s, s.bitmapSize % 8 = 0 → ∃ t, f s = some t ∧ SameBuffer s t

/-- A single module (canvas 8 by 8) in the default configuration with a cleared bitmap. -/
def demo11 : State := fillScreen (constructInit 10 1 1 (fun _ => 0)) 0

/-- The state invariant of the clip region as the code keeps it: clipping is disabled
(`xMin = -1`), or the rectangle is well-formed and its lower corner lies in the canvas. -/
def ClipInvariant (s : State) : Prop :=
  s.clipRegion.xMin = -1 ∨
    (0 ≤ s.clipRegion.xMin ∧ 0 ≤ s.clipRegion.yMin ∧
     s.clipRegion.xMin < s.clipRegion.xMax ∧ s.clipRegion.yMin < s.clipRegion.yMax ∧
     s.clipRegion.xMin < (s._width : Int) ∧ s.clipRegion.yMin < (s._height : Int))

/-- The bus traffic of `reset()` for a chain of `n` modules, in the order of the calls: the
three control bursts, the eight row bursts of the cleared bitmap, the four bursts of
`shutdown(false)` and the intensity burst. -/
def resetTraffic (n : Nat) : List BusEvent :=
  controlBurst n 15 0 ++ controlBurst n 11 7 ++ controlBurst n 9 0 ++
    writeFrames (List.replicate (8 * n) 0) n ++
    (controlBurst n 15 0 ++ controlBurst n 11 7 ++ controlBurst n 9 0 ++ controlBurst n 12 1) ++
    controlBurst n 10 7

/-- A grid of 1 by 2 modules (canvas 8 by 16) in the default configuration with a cleared
bitmap. -/
def demo1x2 : State := fillScreen (constructInit 10 1 2 (fun _ => 0)) 0

/-- The 1 by 2 grid with the focus on module row 1, so that `_ty` is 8. -/
def demoFocused : State := focusOnLine demo1x2 1

/-- The `for` loop of `write()` read literally: the 8-bit counter `row`, the test
`row >= OP_DIGIT0` and the step `row--` modulo 256. The result is the final state and the number
of rounds of the loop, or `none` when the fuel runs out. -/
def writeFor : Nat → Nat → State → Option (State × Nat)
  | 0, _, _ => none
  | fuel + 1, row, s =>
    if row ≥ OP_DIGIT0 then
      match spiTransfer s row 0 with
      | none => none
      | some t => (writeFor fuel (wrap8 ((row : Int) - 1)) t).map (fun r => (r.1, r.2 + 1))
    else some (s, 0)

/-! ## Theorems -/

theorem Configured.h_pos {s : State} {h v : Nat} (c : Configured s h v) : 1 ≤ h := by
  have := c.grid_pos
  rcases Nat.eq_zero_or_pos h with h0 | h0
  · subst h0; simp at this
  · exact h0

theorem Configured.v_pos {s : State} {h v : Nat} (c : Configured s h v) : 1 ≤ v := by
  have := c.grid_pos
  rcases Nat.eq_zero_or_pos v with h0 | h0
  · subst h0; simp at this
  · exact h0

theorem Configured.h_le {s : State} {h v : Nat} (c : Configured s h v) : h ≤ 31 :=
  le_trans (Nat.le_mul_of_pos_right h c.v_pos) c.grid_le

theorem Configured.v_le {s : State} {h v : Nat} (c : Configured s h v) : v ≤ 31 :=
  le_trans (Nat.le_mul_of_pos_left v c.h_pos) c.grid_le

theorem gridSlot_lt {h v x y : Nat} (hx : x < 8 * h) (hy : y < 8 * v) :
    gridSlot h x y < h * v := by
  unfold gridSlot
  have h1 : x / 8 < h := by omega
  have h2 : y / 8 + 1 ≤ v := by omega
  have h3 : h * (y / 8 + 1) ≤ h * v := Nat.mul_le_mul_left h h2
  rw [Nat.mul_add, Nat.mul_one] at h3
  omega

theorem physical_lt {s : State} {h v : Nat} (c : Configured s h v) {x y : Nat}
    (hx : x < s._width) (hy : y < s._height) :
    (physical s x y).1 < 8 * h ∧ (physical s x y).2 < 8 * v := by
  have hw := c.width_eq
  have hh := c.height_eq
  have hW := c.WIDTH_eq
  have hH := c.HEIGHT_eq
  have hr := c.rotation_lt
  unfold physical
  rcases Nat.lt_or_ge s.rotation 1 with r0 | r0
  · have : s.rotation = 0 := by omega
    simp [this] at hw hh ⊢
    omega
  rcases Nat.lt_or_ge s.rotation 2 with r1 | r1
  · have : s.rotation = 1 := by omega
    simp [this] at hw hh ⊢
    omega
  rcases Nat.lt_or_ge s.rotation 3 with r2 | r2
  · have : s.rotation = 2 := by omega
    simp [this] at hw hh ⊢
    omega
  · have : s.rotation = 3 := by omega
    simp [this] at hw hh ⊢
    omega

theorem canvasRotate_physical {s : State} {h v : Nat} (c : Configured s h v) {x y : Nat}
    (hx : x < s._width) (hy : y < s._height) :
    canvasRotate s.rotation s._width s._height (x : Int) (wrap8 (y : Int)) =
      (((physical s x y).1 : Int), (physical s x y).2) := by
  have hw := c.width_eq
  have hh := c.height_eq
  have hW := c.WIDTH_eq
  have hH := c.HEIGHT_eq
  have hr := c.rotation_lt
  have hle := c.h_le
  have vle := c.v_le
  unfold physical canvasRotate wrap8 wrap16
  rcases Nat.lt_or_ge s.rotation 1 with r0 | r0
  · have : s.rotation = 0 := by omega
    simp [this] at hw hh ⊢
    omega
  rcases Nat.lt_or_ge s.rotation 2 with r1 | r1
  · have : s.rotation = 1 := by omega
    simp [this] at hw hh ⊢
    omega
  rcases Nat.lt_or_ge s.rotation 3 with r2 | r2
  · have : s.rotation = 2 := by omega
    simp [this] at hw hh ⊢
    omega
  · have : s.rotation = 3 := by omega
    simp [this] at hw hh ⊢
    omega

theorem moduleRotate_lt (r : Nat) {a b : Nat} (ha : a < 8) (hb : b < 8) :
    (moduleRotate r a b).1 < 8 ∧ (moduleRotate r a b).2 < 8 := by
  unfold moduleRotate
  simp only
  split_ifs <;> simp <;> omega

theorem chainIndex_lt {s : State} {h v : Nat} (c : Configured s h v)
    (hpos : ∀ p ∈ s.matrixPosition, p < h * v) {x y : Nat} (hx : x < 8 * h) (hy : y < 8 * v) :
    chainIndex s x y < h * v := by
  unfold chainIndex
  have hlt : gridSlot s.hDisplays x y < s.matrixPosition.length := by
    rw [c.hDisplays_eq, c.position_len]; exact gridSlot_lt hx hy
  rw [List.getD_eq_getElem _ _ hlt]
  exact hpos _ (List.getElem_mem hlt)

theorem byteForPixel_eq {s : State} {h v : Nat} (c : Configured s h v) {x y : Nat}
    (hx : x < s._width) (hy : y < s._height)
    (hc : chainIndex s (physical s x y).1 (physical s x y).2 < h * v) :
    byteForPixel s (x : Int) (y : Int) = some (address s x y) := by
  have hp := physical_lt c hx hy
  have hW := c.WIDTH_eq
  have hH := c.HEIGHT_eq
  have hD := c.hDisplays_eq
  have hpos := c.h_pos
  unfold byteForPixel
  rw [canvasRotate_physical c hx hy]
  simp only [Int.toNat_ofNat]
  have hcond : ¬ (((physical s x y).1 : Int) < 0 ∨ ((physical s x y).1 : Int) ≥ (s.WIDTH : Int) ∨
      ((physical s x y).2 : Int) < 0 ∨ ((physical s x y).2 : Int) ≥ (s.HEIGHT : Int)) := by
    omega
  rw [if_neg hcond]
  unfold address
  simp only
  have hq := moduleRotate_lt (s.matrixRotation.getD (chainIndex s (physical s x y).1 (physical s x y).2) 0)
    (Nat.mod_lt (physical s x y).1 (by norm_num : 8 > 0)) (Nat.mod_lt (physical s x y).2 (by norm_num : 8 > 0))
  unfold localXY
  have hci : s.matrixPosition.getD (gridSlot s.hDisplays (physical s x y).1 (physical s x y).2) 0
      = chainIndex s (physical s x y).1 (physical s x y).2 := rfl
  rw [hci]
  generalize chainIndex s (physical s x y).1 (physical s x y).2 = ci at hc hq ⊢
  generalize moduleRotate (s.matrixRotation.getD ci 0) ((physical s x y).1 % 8) ((physical s x y).2 % 8) = q at hq ⊢
  rw [hD, hW]
  have hdm : h * (ci / h) + ci % h = ci := Nat.div_add_mod ci h
  have hdlt : ci / h < v := by
    rw [Nat.div_lt_iff_lt_mul (by omega)]
    rw [Nat.mul_comm]; exact hc
  have hvle := c.v_le
  have hsub : ci - ci / h * h = ci % h := by
    rw [Nat.mul_comm]; omega
  have hy2 : wrap8 ((q.2 : Int) + ((ci / h * 8 : Nat) : Int)) = 8 * (ci / h) + q.2 := by
    unfold wrap8; omega
  rw [hy2, hsub]
  have hdiv : (8 * (ci / h) + q.2) / 8 = ci / h := by omega
  rw [hdiv]
  have hmul : 8 * h * (ci / h) = 8 * (h * (ci / h)) := by ring
  rw [hmul]
  congr 2
  omega

theorem and_seven_lt (y : Nat) : y &&& 7 < 8 :=
  Nat.lt_succ_of_le Nat.and_le_right

theorem setBit_test (b k : Nat) : (b ||| 1 <<< k) &&& 1 <<< k ≠ 0 := by
  intro h0
  have h1 : ((b ||| 1 <<< k) &&& 1 <<< k).testBit k = true := by
    rw [Nat.testBit_and, Nat.testBit_or, Nat.one_shiftLeft, Nat.testBit_two_pow_self]
    simp
  rw [h0] at h1
  simp at h1

theorem clearBit_test (b : Nat) {k : Nat} (hk : k < 8) :
    (b &&& (255 ^^^ 1 <<< k)) &&& 1 <<< k = 0 := by
  rw [Nat.and_assoc]
  have : (255 ^^^ 1 <<< k) &&& 1 <<< k = 0 := by
    interval_cases k <;> decide
  rw [this, Nat.and_zero]

theorem byteForPixel_bitmap (s : State) (bm : List Nat) (xx yy : Int) :
    byteForPixel { s with bitmap := bm } xx yy = byteForPixel s xx yy := rfl

theorem address_lt {s : State} {h v : Nat} {x y : Nat}
    (hc : chainIndex s (physical s x y).1 (physical s x y).2 < h * v) :
    (address s x y).1 < 8 * (h * v) := by
  have hq := moduleRotate_lt (s.matrixRotation.getD (chainIndex s (physical s x y).1 (physical s x y).2) 0)
    (Nat.mod_lt (physical s x y).1 (by norm_num : 8 > 0)) (Nat.mod_lt (physical s x y).2 (by norm_num : 8 > 0))
  unfold address localXY
  simp only
  omega

theorem getD_set_self (l : List Nat) {i : Nat} (hi : i < l.length) (a : Nat) :
    (l.set i a).getD i 0 = a := by
  rw [List.getD_eq_getElem _ _ (by simpa using hi)]
  simp

theorem drawPixel_unclipped {s : State} {h v : Nat} (c : Configured s h v)
    (htx : s._tx = 0) (hty : s._ty = 0) (hclip : s.clipRegion.xMin < 0)
    {x y : Nat} (hx : x < s._width) (hy : y < s._height)
    (hc : chainIndex s (physical s x y).1 (physical s x y).2 < h * v) (color : Nat) :
    drawPixel s (x : Int) (y : Int) color =
      { s with
        bitmap := s.bitmap.set (address s x y).1
          (if color ≠ 0 then s.bitmap.getD (address s x y).1 0 ||| 1 <<< ((address s x y).2 &&& 7)
           else s.bitmap.getD (address s x y).1 0 &&& (255 ^^^ 1 <<< ((address s x y).2 &&& 7))) } := by
  have hw : s._width ≤ 248 := by
    have := c.width_eq; have := c.WIDTH_eq; have := c.HEIGHT_eq
    have := c.h_le; have := c.v_le
    split_ifs at * <;> omega
  have hh : s._height ≤ 248 := by
    have := c.height_eq; have := c.WIDTH_eq; have := c.HEIGHT_eq
    have := c.h_le; have := c.v_le
    split_ifs at * <;> omega
  have e1 : wrap16 ((x : Int) + s._tx) = x := by rw [htx]; unfold wrap16; omega
  have e2 : wrap16 ((y : Int) + s._ty) = y := by rw [hty]; unfold wrap16; omega
  unfold drawPixel
  simp only [e1, e2]
  rw [if_neg (by omega), byteForPixel_eq c hx hy hc]
  simp only
  split_ifs <;> rfl

theorem demo21_configured : Configured demo21 2 1 :=
  ⟨by decide, by decide, rfl, rfl, rfl, rfl, rfl, rfl, rfl, by decide, rfl, rfl⟩

theorem readPixel_after_draw {s : State} {h v : Nat} (c : Configured s h v)
    (htx : s._tx = 0) (hty : s._ty = 0) (hclip : s.clipRegion.xMin < 0)
    {x y : Nat} (hx : x < s._width) (hy : y < s._height)
    (hc : chainIndex s (physical s x y).1 (physical s x y).2 < h * v) (color : Nat) :
    readPixel (drawPixel s (x : Int) (y : Int) color) (x : Int) (y : Int) =
      if color ≠ 0 then 1 else 0 := by
  have hlt : (address s x y).1 < s.bitmap.length := by
    rw [c.bitmap_len]; exact address_lt hc
  rw [drawPixel_unclipped c htx hty hclip hx hy hc]
  unfold readPixel
  rw [byteForPixel_bitmap, byteForPixel_eq c hx hy hc]
  simp only
  rw [getD_set_self _ hlt]
  by_cases hcol : color = 0
  · simp only [hcol, ne_eq, not_true_eq_false, if_false]
    rw [clearBit_test _ (and_seven_lt _)]
    simp
  · simp only [ne_eq, hcol, not_false_eq_true, if_true]
    rw [if_pos (setBit_test _ _)]

/-- C1: draw/read round trip. On a grid of 1 to 31 modules whose position table has all
entries below the number of modules, with any module rotation table, any canvas rotation in
0..3, zero translation offset and clipping disabled, `readPixel(x,y)` after
`drawPixel(x,y,c)` is 1 when `c` is non-zero and 0 when `c` is zero, for every pixel of the
canvas. -/
theorem drawPixel_readPixel_roundtrip (s : State) (h v : Nat) (c : Configured s h v)
    (hpos : ∀ p ∈ s.matrixPosition, p < h * v)
    (htx : s._tx = 0) (hty : s._ty = 0) (hclip : s.clipRegion.xMin < 0)
    (x y : Nat) (hx : x < s._width) (hy : y < s._height) (color : Nat) :
    readPixel (drawPixel s (x : Int) (y : Int) color) (x : Int) (y : Int) =
      if color ≠ 0 then 1 else 0 := by
  have hp := physical_lt c hx hy
  exact readPixel_after_draw c htx hty hclip hx hy (chainIndex_lt c hpos hp.1 hp.2) color

/-- An instance of the round trip: the pixel `(9, 3)` of the 2 by 1 grid. -/
theorem drawPixel_readPixel_roundtrip_witness :
    Configured demo21 2 1 ∧
      readPixel (drawPixel demo21 ((9 : Nat) : Int) ((3 : Nat) : Int) 1) ((9 : Nat) : Int) ((3 : Nat) : Int) = 1 :=
  ⟨demo21_configured,
   drawPixel_readPixel_roundtrip demo21 2 1 demo21_configured (by decide) rfl rfl (by decide)
     9 3 (by decide) (by decide) 1⟩

theorem and_seven_eq_mod (y : Nat) : y &&& 7 = y % 8 :=
  Nat.and_pow_two_sub_one_eq_mod y 3

theorem moduleRotate_inj (r : Nat) {a b a1 b1 : Nat} (ha : a < 8) (hb : b < 8)
    (ha1 : a1 < 8) (hb1 : b1 < 8) (he : moduleRotate r a b = moduleRotate r a1 b1) :
    a = a1 ∧ b = b1 := by
  unfold moduleRotate at he
  simp only at he
  split_ifs at he <;> simp only [Prod.mk.injEq] at he <;> omega

theorem gridSlot_inj {h x y x1 y1 : Nat} (hx : x < 8 * h) (hx1 : x1 < 8 * h)
    (he : gridSlot h x y = gridSlot h x1 y1) : x / 8 = x1 / 8 ∧ y / 8 = y1 / 8 := by
  unfold gridSlot at he
  have h1 : x / 8 < h := by omega
  have h2 : x1 / 8 < h := by omega
  have e1 : (x / 8 + h * (y / 8)) % h = x / 8 := by
    rw [Nat.add_mul_mod_self_left]; exact Nat.mod_eq_of_lt h1
  have e2 : (x1 / 8 + h * (y1 / 8)) % h = x1 / 8 := by
    rw [Nat.add_mul_mod_self_left]; exact Nat.mod_eq_of_lt h2
  have e3 : x / 8 = x1 / 8 := by rw [← e1, ← e2, he]
  refine ⟨e3, ?_⟩
  rw [e3] at he
  have e4 : h * (y / 8) = h * (y1 / 8) := by omega
  exact Nat.eq_of_mul_eq_mul_left (by omega) e4

theorem physical_inj {s : State} {x y x1 y1 : Nat}
    (hx : x < s._width) (hy : y < s._height) (hx1 : x1 < s._width) (hy1 : y1 < s._height)
    (he : physical s x y = physical s x1 y1) : x = x1 ∧ y = y1 := by
  unfold physical at he
  split_ifs at he <;> simp only [Prod.mk.injEq] at he <;> omega

theorem chainIndex_inj {s : State} {h v : Nat} (c : Configured s h v)
    (hnd : s.matrixPosition.Nodup) {x y x1 y1 : Nat}
    (hx : x < 8 * h) (hy : y < 8 * v) (hx1 : x1 < 8 * h) (hy1 : y1 < 8 * v)
    (he : chainIndex s x y = chainIndex s x1 y1) :
    gridSlot h x y = gridSlot h x1 y1 := by
  unfold chainIndex at he
  rw [c.hDisplays_eq] at he
  have hlt : gridSlot h x y < s.matrixPosition.length := by
    rw [c.position_len]; exact gridSlot_lt hx hy
  have hlt1 : gridSlot h x1 y1 < s.matrixPosition.length := by
    rw [c.position_len]; exact gridSlot_lt hx1 hy1
  rw [List.getD_eq_getElem _ _ hlt, List.getD_eq_getElem _ _ hlt1] at he
  exact (hnd.getElem_inj_iff).mp he

theorem address_inj {s : State} {h v : Nat} (c : Configured s h v)
    (hnd : s.matrixPosition.Nodup) {x y x1 y1 : Nat}
    (hx : x < s._width) (hy : y < s._height) (hx1 : x1 < s._width) (hy1 : y1 < s._height)
    (he1 : (address s x y).1 = (address s x1 y1).1)
    (he2 : (address s x y).2 % 8 = (address s x1 y1).2 % 8) : x = x1 ∧ y = y1 := by
  have hp := physical_lt c hx hy
  have hp1 := physical_lt c hx1 hy1
  apply physical_inj hx hy hx1 hy1
  have hq := moduleRotate_lt (s.matrixRotation.getD (chainIndex s (physical s x y).1 (physical s x y).2) 0)
    (Nat.mod_lt (physical s x y).1 (by norm_num : 8 > 0)) (Nat.mod_lt (physical s x y).2 (by norm_num : 8 > 0))
  have hq1 := moduleRotate_lt (s.matrixRotation.getD (chainIndex s (physical s x1 y1).1 (physical s x1 y1).2) 0)
    (Nat.mod_lt (physical s x1 y1).1 (by norm_num : 8 > 0)) (Nat.mod_lt (physical s x1 y1).2 (by norm_num : 8 > 0))
  unfold address localXY at he1 he2
  simp only at he1 he2
  generalize physical s x y = p at *
  generalize physical s x1 y1 = p1 at *
  have hci : chainIndex s p.1 p.2 = chainIndex s p1.1 p1.2 := by omega
  rw [← hci] at hq1 he1 he2
  have hm : moduleRotate (s.matrixRotation.getD (chainIndex s p.1 p.2) 0) (p.1 % 8) (p.2 % 8) =
      moduleRotate (s.matrixRotation.getD (chainIndex s p.1 p.2) 0) (p1.1 % 8) (p1.2 % 8) := by
    apply Prod.ext <;> omega
  have hl := moduleRotate_inj _ (Nat.mod_lt _ (by norm_num)) (Nat.mod_lt _ (by norm_num))
    (Nat.mod_lt _ (by norm_num)) (Nat.mod_lt _ (by norm_num)) hm
  have hs := gridSlot_inj hp.1 hp1.1 (chainIndex_inj c hnd hp.1 hp.2 hp1.1 hp1.2 hci)
  apply Prod.ext <;> omega

theorem pixelBit_eq {s : State} {h v : Nat} (c : Configured s h v)
    (hpos : ∀ p ∈ s.matrixPosition, p < h * v) {x y : Nat}
    (hx : x < s._width) (hy : y < s._height) :
    pixelBit s (x : Int) (y : Int) = some ((address s x y).1, (address s x y).2 % 8) := by
  have hp := physical_lt c hx hy
  unfold pixelBit
  rw [byteForPixel_eq c hx hy (chainIndex_lt c hpos hp.1 hp.2)]
  simp [and_seven_eq_mod]

theorem canvas_area {s : State} {h v : Nat} (c : Configured s h v) :
    s._width * s._height = 8 * (h * v) * 8 := by
  have hw := c.width_eq
  have hh := c.height_eq
  rw [c.WIDTH_eq, c.HEIGHT_eq] at hw hh
  split_ifs at hw hh <;> rw [hw, hh] <;> ring

theorem address_surj {s : State} {h v : Nat} (c : Configured s h v)
    (hpos : ∀ p ∈ s.matrixPosition, p < h * v) (hnd : s.matrixPosition.Nodup)
    {off bit : Nat} (hoff : off < 8 * (h * v)) (hbit : bit < 8) :
    ∃ x y, x < s._width ∧ y < s._height ∧
      ((address s x y).1, (address s x y).2 % 8) = (off, bit) := by
  let f : Nat × Nat → Nat × Nat := fun p => ((address s p.1 p.2).1, (address s p.1 p.2).2 % 8)
  let D : Finset (Nat × Nat) := Finset.range s._width ×ˢ Finset.range s._height
  let T : Finset (Nat × Nat) := Finset.range (8 * (h * v)) ×ˢ Finset.range 8
  have hsub : D.image f ⊆ T := by
    intro q hq
    obtain ⟨p, hpD, rfl⟩ := Finset.mem_image.mp hq
    simp only [D, Finset.mem_product, Finset.mem_range] at hpD
    have hp := physical_lt c hpD.1 hpD.2
    simp only [T, f, Finset.mem_product, Finset.mem_range]
    exact ⟨address_lt (chainIndex_lt c hpos hp.1 hp.2), Nat.mod_lt _ (by norm_num)⟩
  have hinj : Set.InjOn f D := by
    intro p hp p1 hp1 he
    simp only [D, Finset.coe_product, Finset.coe_range, Set.mem_prod, Set.mem_Iio] at hp hp1
    simp only [f, Prod.mk.injEq] at he
    have := address_inj c hnd hp.1 hp.2 hp1.1 hp1.2 he.1 he.2
    exact Prod.ext this.1 this.2
  have hcard : T.card ≤ (D.image f).card := by
    rw [Finset.card_image_of_injOn hinj]
    simp only [D, T, Finset.card_product, Finset.card_range]
    rw [canvas_area c]
  have himg : D.image f = T := Finset.eq_of_subset_of_card_le hsub hcard
  have hmem : (off, bit) ∈ D.image f := by
    rw [himg]
    simp only [T, Finset.mem_product, Finset.mem_range]
    exact ⟨hoff, hbit⟩
  obtain ⟨p, hpD, hfp⟩ := Finset.mem_image.mp hmem
  simp only [D, Finset.mem_product, Finset.mem_range] at hpD
  exact ⟨p.1, p.2, hpD.1, hpD.2, hfp⟩

theorem perm_range_bounds {l : List Nat} {n : Nat} (hperm : l.Perm (List.range n)) :
    (∀ p ∈ l, p < n) ∧ l.Nodup :=
  ⟨fun _ hp => List.mem_range.mp (hperm.mem_iff.mp hp),
   hperm.nodup_iff.mpr (List.nodup_range n)⟩

/-- C2: bijectivity of addressing. On a grid of 1 to 31 modules whose position table is a
permutation of the chain indices, for every module rotation table and every canvas rotation
in 0..3, the map from the canvas pixels to (byte offset, bit index `y & 7`) computed by
`byteForPixel` is defined on every canvas pixel, lands among the `64 n` bits of the bitmap,
is injective, and reaches every one of these bits. -/
theorem byteForPixel_bijective (s : State) (h v : Nat) (c : Configured s h v)
    (hperm : s.matrixPosition.Perm (List.range (h * v))) :
    (∀ x y : Nat, x < s._width → y < s._height →
      ∃ off bit, pixelBit s (x : Int) (y : Int) = some (off, bit) ∧
        off < 8 * (h * v) ∧ bit < 8) ∧
    (∀ x y x1 y1 : Nat, x < s._width → y < s._height → x1 < s._width → y1 < s._height →
      pixelBit s (x : Int) (y : Int) = pixelBit s (x1 : Int) (y1 : Int) → x = x1 ∧ y = y1) ∧
    (∀ off bit : Nat, off < 8 * (h * v) → bit < 8 →
      ∃ x y : Nat, x < s._width ∧ y < s._height ∧
        pixelBit s (x : Int) (y : Int) = some (off, bit)) := by
  obtain ⟨hpos, hnd⟩ := perm_range_bounds hperm
  refine ⟨?_, ?_, ?_⟩
  · intro x y hx hy
    have hp := physical_lt c hx hy
    exact ⟨_, _, pixelBit_eq c hpos hx hy,
      address_lt (chainIndex_lt c hpos hp.1 hp.2), Nat.mod_lt _ (by norm_num)⟩
  · intro x y x1 y1 hx hy hx1 hy1 he
    rw [pixelBit_eq c hpos hx hy, pixelBit_eq c hpos hx1 hy1] at he
    simp only [Option.some.injEq, Prod.mk.injEq] at he
    exact address_inj c hnd hx hy hx1 hy1 he.1 he.2
  · intro off bit hoff hbit
    obtain ⟨x, y, hx, hy, he⟩ := address_surj c hpos hnd hoff hbit
    exact ⟨x, y, hx, hy, by rw [pixelBit_eq c hpos hx hy, he]⟩

/-- An instance of the bijection: bit 3 of byte 9 of the 2 by 1 grid is the image of a canvas
pixel. -/
theorem byteForPixel_bijective_witness :
    Configured demo21 2 1 ∧ demo21.matrixPosition.Perm (List.range (2 * 1)) ∧
      ∃ x y : Nat, x < demo21._width ∧ y < demo21._height ∧
        pixelBit demo21 (x : Int) (y : Int) = some (9, 3) :=
  ⟨demo21_configured, List.Perm.refl _,
   (byteForPixel_bijective demo21 2 1 demo21_configured (List.Perm.refl _)).2.2 9 3
     (by decide) (by decide)⟩

theorem pairs_length (opcode : Nat) (dataOf : Nat → Nat) (n : Nat) :
    ((List.range n).flatMap
      (fun k => [BusEvent.transfer opcode, BusEvent.transfer (dataOf k)])).length = 2 * n := by
  induction n with
  | zero => simp
  | succ n ih =>
    rw [List.range_succ, List.flatMap_append, List.length_append, ih]
    simp
    omega

theorem pairs_getD (opcode : Nat) (dataOf : Nat → Nat) (n : Nat) :
    ∀ k, k < n →
      ((List.range n).flatMap
        (fun k => [BusEvent.transfer opcode, BusEvent.transfer (dataOf k)])).getD (2 * k)
          BusEvent.csLow = BusEvent.transfer opcode ∧
      ((List.range n).flatMap
        (fun k => [BusEvent.transfer opcode, BusEvent.transfer (dataOf k)])).getD (2 * k + 1)
          BusEvent.csLow = BusEvent.transfer (dataOf k) := by
  induction n with
  | zero => intro k hk; omega
  | succ n ih =>
    intro k hk
    have hlen := pairs_length opcode dataOf n
    rw [List.range_succ, List.flatMap_append]
    rcases Nat.lt_or_ge k n with hlt | hge
    · have h1 := ih k hlt
      rw [List.getD_append _ _ _ _ (by rw [hlen]; omega),
        List.getD_append _ _ _ _ (by rw [hlen]; omega)]
      exact h1
    · have hk' : k = n := by omega
      subst hk'
      rw [List.getD_append_right _ _ _ _ (by rw [hlen]),
        List.getD_append_right _ _ _ _ (by rw [hlen]; omega), hlen]
      simp

theorem burst_shape (opcode : Nat) (dataOf : Nat → Nat) (n : Nat) :
    (burst opcode dataOf n).length = 2 * n + 2 ∧
    (burst opcode dataOf n).head? = some BusEvent.csLow ∧
    (burst opcode dataOf n).getLast? = some BusEvent.csHigh ∧
    ∀ k, k < n →
      (burst opcode dataOf n).getD (1 + 2 * k) BusEvent.csLow = BusEvent.transfer opcode ∧
      (burst opcode dataOf n).getD (2 + 2 * k) BusEvent.csLow = BusEvent.transfer (dataOf k) := by
  have hlen := pairs_length opcode dataOf n
  refine ⟨?_, ?_, ?_, ?_⟩
  · simp only [burst, List.length_append, hlen, List.length_singleton]; omega
  · simp [burst]
  · unfold burst
    exact List.getLast?_concat _
  · intro k hk
    have h := pairs_getD opcode dataOf n k hk
    unfold burst
    rw [List.append_assoc, List.singleton_append]
    have e1 : 1 + 2 * k = (2 * k) + 1 := by omega
    have e2 : 2 + 2 * k = (2 * k + 1) + 1 := by omega
    rw [e1, e2, List.getD_cons_succ, List.getD_cons_succ,
      List.getD_append _ _ _ _ (by rw [hlen]; omega),
      List.getD_append _ _ _ _ (by rw [hlen]; omega)]
    exact h

theorem spiLoop_run (opcode data : Nat) (bitmap : List Nat) (end_ : Nat) :
    ∀ (j fuel start : Nat), j < fuel → start < 256 →
      wrap8 ((start : Int) - 8) = end_ + 8 * j →
      spiLoop opcode data bitmap end_ fuel start =
        some ((List.range (j + 1)).flatMap (fun k =>
          [BusEvent.transfer opcode,
           BusEvent.transfer (transferData opcode data bitmap (end_ + 8 * (j - k)))])) := by
  intro j
  induction j with
  | zero =>
    intro fuel start hf hs hw
    obtain ⟨f, rfl⟩ : ∃ f, fuel = f + 1 := ⟨fuel - 1, by omega⟩
    have hr : List.range (0 + 1) = [0] := rfl
    simp only [spiLoop, hw, transferData, hr]
    simp
  | succ j ih =>
    intro fuel start hf hs hw
    obtain ⟨f, rfl⟩ : ∃ f, fuel = f + 1 := ⟨fuel - 1, by omega⟩
    have hlt : end_ + 8 * (j + 1) < 256 := by
      rw [← hw]; unfold wrap8; omega
    have hnext : wrap8 (((end_ + 8 * (j + 1) : Nat) : Int) - 8) = end_ + 8 * j := by
      unfold wrap8; omega
    simp only [spiLoop, hw]
    rw [if_pos (by omega), ih f (end_ + 8 * (j + 1)) (by omega) hlt hnext]
    rw [List.range_succ_eq_map (j + 1), List.flatMap_cons, List.flatMap_map]
    simp [transferData]

theorem spiTransfer_burst (s : State) (n opcode data : Nat) (hn1 : 1 ≤ n) (hn : n ≤ 31)
    (hsize : s.bitmapSize = 8 * n) (hop1 : 1 ≤ opcode) (hop : opcode ≤ 15) :
    spiTransfer s opcode data =
      some { s with
        bus := s.bus ++ burst opcode
          (fun k => transferData opcode data s.bitmap (8 * (n - 1 - k) + (opcode - 1))) n } := by
  have hend : wrap8 ((opcode : Int) - (OP_DIGIT0 : Int)) = opcode - 1 := by
    unfold wrap8 OP_DIGIT0; omega
  have hstart : wrap8 (((wrap8 (((8 * n : Nat) : Int) + ((opcode - 1 : Nat) : Int)) : Nat) : Int) - 8)
      = (opcode - 1) + 8 * (n - 1) := by
    unfold wrap8; omega
  unfold spiTransfer
  simp only [hend, hsize]
  rw [spiLoop_run opcode data s.bitmap (opcode - 1) (n - 1) spiFuel _
    (by unfold spiFuel; omega) (by unfold wrap8; omega) hstart]
  simp only [burst]
  have hn' : n - 1 + 1 = n := by omega
  rw [hn']
  have hfun : ∀ k, opcode - 1 + 8 * (n - 1 - k) = 8 * (n - 1 - k) + (opcode - 1) := by
    intro k; omega
  simp only [hfun, List.append_assoc]

theorem spiTransfer_row (s : State) (n op data : Nat) (hn1 : 1 ≤ n) (hn : n ≤ 31)
    (hsize : s.bitmapSize = 8 * n) (hop1 : 1 ≤ op) (hop : op ≤ 8) :
    spiTransfer s op data = some { s with bus := s.bus ++ rowBurst s.bitmap n op } := by
  rw [spiTransfer_burst s n op data hn1 hn hsize hop1 (by omega)]
  simp only [rowBurst, transferData, OP_DIGIT7, hop, if_true]

theorem spiTransfer_ctrl (s : State) (n op data : Nat) (hn1 : 1 ≤ n) (hn : n ≤ 31)
    (hsize : s.bitmapSize = 8 * n) (hop9 : 9 ≤ op) (hop : op ≤ 15) :
    spiTransfer s op data = some { s with bus := s.bus ++ controlBurst n op data } := by
  rw [spiTransfer_burst s n op data hn1 hn hsize (by omega) hop]
  have : ¬ op ≤ 8 := by omega
  simp only [controlBurst, transferData, OP_DIGIT7, this, if_false]

theorem writeLoop_run (n : Nat) (hn1 : 1 ≤ n) (hn : n ≤ 31) :
    ∀ (row : Nat) (s : State), row ≤ 8 → s.bitmapSize = 8 * n →
      writeLoop row s =
        some { s with bus := s.bus ++ (List.iota row).flatMap (rowBurst s.bitmap n) } := by
  intro row
  induction row with
  | zero => intro s _ _; simp [writeLoop, List.iota]
  | succ row ih =>
    intro s hrow hsize
    simp only [writeLoop]
    rw [spiTransfer_row s n (row + 1) 0 hn1 hn hsize (by omega) hrow]
    simp only [Option.some_bind]
    have hnext := ih { s with bus := s.bus ++ rowBurst s.bitmap n (row + 1) } (by omega) hsize
    rw [hnext]
    simp [List.iota, List.append_assoc]

/-- C7: framing of `write()`. For a chain of 1 to 31 modules, `write()` returns and appends to
the bus exactly eight bursts, for the opcodes 8, 7, ..., 1 in that order, each bracketed by
chip-select low and high and made of exactly `n` (opcode, data) pairs, the `k`-th pair of the
burst of opcode `op` carrying `bitmap[8 * (n - 1 - k) + (op - 1)]`; nothing else in the state
changes. -/
theorem write_framing (s : State) (n : Nat) (hn1 : 1 ≤ n) (hn : n ≤ 31)
    (hsize : s.bitmapSize = 8 * n) :
    write s = some { s with bus := s.bus ++ writeFrames s.bitmap n } ∧
    (∀ op, (rowBurst s.bitmap n op).length = 2 * n + 2 ∧
      (rowBurst s.bitmap n op).head? = some BusEvent.csLow ∧
      (rowBurst s.bitmap n op).getLast? = some BusEvent.csHigh ∧
      ∀ k, k < n →
        (rowBurst s.bitmap n op).getD (1 + 2 * k) BusEvent.csLow = BusEvent.transfer op ∧
        (rowBurst s.bitmap n op).getD (2 + 2 * k) BusEvent.csLow =
          BusEvent.transfer (s.bitmap.getD (8 * (n - 1 - k) + (op - 1)) 0)) := by
  refine ⟨?_, ?_⟩
  · unfold write OP_DIGIT7
    rw [writeLoop_run n hn1 hn 8 s (by omega) hsize]
    rfl
  · intro op
    exact burst_shape op _ n

/-- An instance of the framing of `write()`: a chain of 3 modules. -/
theorem write_framing_witness :
    1 ≤ 3 ∧ 3 ≤ 31 ∧ demo3x1.bitmapSize = 8 * 3 ∧
      write demo3x1 = some { demo3x1 with bus := demo3x1.bus ++ writeFrames demo3x1.bitmap 3 } ∧
      (rowBurst demo3x1.bitmap 3 8).getD (2 + 2 * 0) BusEvent.csLow =
        BusEvent.transfer (demo3x1.bitmap.getD (8 * (3 - 1 - 0) + (8 - 1)) 0) :=
  ⟨by decide, by decide, rfl,
   (write_framing demo3x1 3 (by decide) (by decide) rfl).1,
   ((write_framing demo3x1 3 (by decide) (by decide) rfl).2 8).2.2.2 0 (by decide) |>.2⟩

/-- C8: broadcast of a control opcode. For a chain of 1 to 31 modules, a control opcode `op`
in 9..15 and any data byte `d`, `spiTransfer(op, d)` returns and appends to the bus one burst
of exactly `n` pairs, each equal to `(op, d)`; the traffic is the same whatever the bitmap
holds; `setIntensity(d)` is the case `op = 10`. The bounds include the chains for which
`bitmapSize + (op - 1)` exceeds 255 and the 8-bit counter wraps. -/
theorem spiTransfer_control_broadcast (s : State) (n op d : Nat) (hn1 : 1 ≤ n) (hn : n ≤ 31)
    (hsize : s.bitmapSize = 8 * n) (hop9 : 9 ≤ op) (hop : op ≤ 15) :
    spiTransfer s op d = some { s with bus := s.bus ++ controlBurst n op d } ∧
    controlBurst n op d =
      [BusEvent.csLow] ++
        (List.replicate n [BusEvent.transfer op, BusEvent.transfer d]).flatten ++
        [BusEvent.csHigh] ∧
    (∀ bm : List Nat,
      (spiTransfer { s with bitmap := bm } op d).map (fun t => t.bus) =
        some (s.bus ++ controlBurst n op d)) ∧
    (op = OP_INTENSITY → setIntensity s d = some { s with bus := s.bus ++ controlBurst n op d }) := by
  refine ⟨spiTransfer_ctrl s n op d hn1 hn hsize hop9 hop, ?_, ?_, ?_⟩
  · unfold controlBurst burst
    congr 2
    clear hn1 hn hsize
    induction n with
    | zero => simp
    | succ n ih =>
      rw [List.range_succ, List.flatMap_append, ih, List.replicate_succ' ]
      simp
  · intro bm
    rw [spiTransfer_ctrl { s with bitmap := bm } n op d hn1 hn hsize hop9 hop]
    rfl
  · intro hi
    subst hi
    exact spiTransfer_ctrl s n OP_INTENSITY d hn1 hn hsize hop9 hop

/-- An instance of the broadcast on the longest chain, where `bitmapSize + (op - 1)` is 256 and
wraps to 0, and of `setIntensity`. -/
theorem spiTransfer_control_broadcast_witness :
    1 ≤ 31 ∧ 31 ≤ 31 ∧ demo31x1.bitmapSize = 8 * 31 ∧ 9 ≤ 9 ∧ 9 ≤ 15 ∧
      255 < demo31x1.bitmapSize + (9 - 1) ∧
      spiTransfer demo31x1 9 5 =
        some { demo31x1 with bus := demo31x1.bus ++ controlBurst 31 9 5 } ∧
      setIntensity demo31x1 5 =
        some { demo31x1 with bus := demo31x1.bus ++ controlBurst 31 OP_INTENSITY 5 } :=
  ⟨by decide, by decide, rfl, by decide, by decide, by decide,
   (spiTransfer_control_broadcast demo31x1 31 9 5 (by decide) (by decide) rfl
     (by decide) (by decide)).1,
   (spiTransfer_control_broadcast demo31x1 31 OP_INTENSITY 5 (by decide) (by decide) rfl
     (by decide) (by decide)).2.2.2 rfl⟩

theorem SameBuffer.refl (s : State) : SameBuffer s s := ⟨rfl, rfl⟩

theorem Runs.bind {f g : State → Option State} (hf : Runs f) (hg : Runs g) :
    Runs (fun s => (f s).bind g) := by
  intro s hs
  obtain ⟨t, ht, hst⟩ := hf s hs
  obtain ⟨u, hu, htu⟩ := hg t (by rw [hst.1]; exact hs)
  exact ⟨u, by simp [ht, hu], htu.1.trans hst.1, htu.2.trans hst.2⟩

theorem Runs.pure {f : State → State} (hf : ∀ s, SameBuffer s (f s)) :
    Runs (fun s => some (f s)) :=
  fun s _ => ⟨f s, rfl, hf s⟩

theorem spiLoop_stop (opcode data : Nat) (bitmap : List Nat) (end_ fuel start : Nat)
    (h : ¬ wrap8 ((start : Int) - 8) > end_) :
    ∃ l, spiLoop opcode data bitmap end_ (fuel + 1) start = some l := by
  simp only [spiLoop, if_neg h]
  exact ⟨_, rfl⟩

theorem spiTransfer_runs (opcode data : Nat) : Runs (fun s => spiTransfer s opcode data) := by
  intro s hs
  have hloop : ∃ l, spiLoop opcode data s.bitmap (wrap8 ((opcode : Int) - (OP_DIGIT0 : Int)))
      spiFuel (wrap8 ((s.bitmapSize : Int) + (wrap8 ((opcode : Int) - (OP_DIGIT0 : Int)) : Int)))
        = some l := by
    generalize wrap8 ((opcode : Int) - (OP_DIGIT0 : Int)) = e
    by_cases hgt : wrap8 (((wrap8 ((s.bitmapSize : Int) + (e : Int)) : Nat) : Int) - 8) > e
    · have hj : wrap8 (((wrap8 ((s.bitmapSize : Int) + (e : Int)) : Nat) : Int) - 8) =
          e + 8 * ((wrap8 (((wrap8 ((s.bitmapSize : Int) + (e : Int)) : Nat) : Int) - 8) - e) / 8) := by
        unfold wrap8 at hgt ⊢; omega
      exact ⟨_, spiLoop_run opcode data s.bitmap e _ spiFuel _
        (by unfold spiFuel wrap8; omega) (by unfold wrap8; omega) hj⟩
    · exact spiLoop_stop opcode data s.bitmap e 31 _ hgt
  obtain ⟨l, hl⟩ := hloop
  refine ⟨{ s with bus := s.bus ++ [BusEvent.csLow] ++ l ++ [BusEvent.csHigh] }, ?_, rfl, rfl⟩
  simp only [spiTransfer, hl]

theorem writeLoop_runs : ∀ row : Nat, Runs (writeLoop row)
  | 0 => fun s _ => ⟨s, rfl, SameBuffer.refl s⟩
  | row + 1 => (spiTransfer_runs (row + 1) 0).bind (writeLoop_runs row)

theorem write_runs : Runs write := writeLoop_runs OP_DIGIT7

theorem shutdown_runs (b : Bool) : Runs (fun s => shutdown s b) := by
  cases b
  · exact (((spiTransfer_runs OP_DISPLAYTEST 0).bind (spiTransfer_runs OP_SCANLIMIT 7)).bind
      (spiTransfer_runs OP_DECODEMODE 0)).bind (spiTransfer_runs OP_SHUTDOWN 1)
  · exact spiTransfer_runs OP_SHUTDOWN 0

theorem fillScreen_sameBuffer (s : State) (color : Nat) : SameBuffer s (fillScreen s color) := by
  refine ⟨rfl, ?_⟩
  simp only [fillScreen, List.length_append, List.length_replicate, List.length_drop]
  omega

theorem drawPixel_sameBuffer (s : State) (x y : Int) (color : Nat) :
    SameBuffer s (drawPixel s x y color) := by
  unfold drawPixel
  simp only
  split_ifs <;>
    first
    | exact SameBuffer.refl s
    | (split <;> first | exact SameBuffer.refl s | exact ⟨rfl, by simp⟩)

theorem startup_runs :
    Runs (fun s =>
      (((((spiTransfer s OP_DISPLAYTEST 0).bind
        (fun s => spiTransfer s OP_SCANLIMIT 7)).bind
        (fun s => spiTransfer s OP_DECODEMODE 0)).bind
        write).bind
        (fun s => shutdown s false)).bind
        (fun s => setIntensity s 7)) :=
  (((((spiTransfer_runs OP_DISPLAYTEST 0).bind (spiTransfer_runs OP_SCANLIMIT 7)).bind
    (spiTransfer_runs OP_DECODEMODE 0)).bind write_runs).bind (shutdown_runs false)).bind
    (spiTransfer_runs OP_INTENSITY 7)

theorem reset_runs : Runs reset := by
  intro s hs
  obtain ⟨t, ht, hb⟩ := startup_runs (fillScreen s 0) hs
  exact ⟨t, ht, hb.1, by rw [hb.2]; exact (fillScreen_sameBuffer s 0).2⟩

theorem Op.run_runs (op : Op) : Runs op.run := by
  cases op with
  | drawPixel x y color => exact Runs.pure (fun s => drawPixel_sameBuffer s x y color)
  | fillScreen color => exact Runs.pure (fun s => fillScreen_sameBuffer s color)
  | clip a b c d =>
    refine @Runs.pure (fun s => Max72xxPanel.clip s a b c d) (fun s => ?_)
    change SameBuffer s (Max72xxPanel.clip s a b c d)
    unfold Max72xxPanel.clip
    split_ifs <;> exact ⟨rfl, rfl⟩
  | resetClip => exact @Runs.pure Max72xxPanel.resetClip (fun s => ⟨rfl, rfl⟩)
  | setPosition d x y =>
    exact @Runs.pure (fun s => Max72xxPanel.setPosition s d x y) (fun s => ⟨rfl, rfl⟩)
  | setModuleRotation d r =>
    exact @Runs.pure (fun s => Max72xxPanel.setModuleRotation s d r) (fun s => ⟨rfl, rfl⟩)
  | setRotation r =>
    refine @Runs.pure (fun s => Max72xxPanel.setRotation s r) (fun s => ?_)
    change SameBuffer s (Max72xxPanel.setRotation s r)
    unfold Max72xxPanel.setRotation
    simp only
    split_ifs <;> exact ⟨rfl, rfl⟩
  | shutdown b => exact shutdown_runs b
  | setIntensity i => exact spiTransfer_runs OP_INTENSITY i
  | write => exact write_runs
  | reset => exact reset_runs

theorem constructInit_size (csPin h v : Nat) (mem : Nat → Nat) :
    (constructInit csPin h v mem).bitmapSize = (h * v % 256 * 8) % 256 ∧
    (constructInit csPin h v mem).bitmap.length = (h * v % 256 * 8) % 256 := by
  have e : wrap8 (((wrap8 ((h * v : Nat) : Int) * 8 : Nat) : Nat) : Int) = (h * v % 256 * 8) % 256 := by
    unfold wrap8; omega
  simp only [constructInit, resetClip, List.length_map, List.length_range, e, and_self]

/-- On a grid of at most 31 modules the constructor returns with `bitmapSize` and the length
of the bitmap equal to `8 * hDisplays * vDisplays`. -/
theorem construct_bitmapSize_small (csPin h v : Nat) (mem : Nat → Nat) (hle : h * v ≤ 31) :
    ∃ s, construct csPin h v mem = some s ∧
      s.bitmapSize = 8 * h * v ∧ s.bitmap.length = 8 * h * v := by
  obtain ⟨hsz, hlen⟩ := constructInit_size csPin h v mem
  have hfill := fillScreen_sameBuffer (constructInit csPin h v mem) 0
  obtain ⟨t, ht, hb⟩ := startup_runs (fillScreen (constructInit csPin h v mem) 0)
    (by rw [hfill.1, hsz]; omega)
  have hmul : 8 * h * v = 8 * (h * v) := by ring
  refine ⟨t, ht, ?_, ?_⟩
  · rw [hb.1, hfill.1, hsz, hmul]
    generalize h * v = n at hle ⊢
    omega
  · rw [hb.2, hfill.2, hlen, hmul]
    generalize h * v = n at hle ⊢
    omega

/-- C9, the code at the failing input: for `hDisplays = 8` and `vDisplays = 4` the constructor
computes `displays = 32` and `bitmapSize = displays << 3` in 8-bit arithmetic, which is 0 and
not `8 * 8 * 4 = 256`, and allocates a bitmap of 0 bytes, while the canvas it hands to the
graphics base class is 64 by 32. The canvas pixel `(0, 0)` then passes the bounds check of
`byteForPixel` and is given offset 0, outside the empty bitmap, and the first byte that the
row burst of opcode 8 asks for is `bitmap[255]`. -/
theorem bitmapSize_wraps :
    (construct 10 8 4 (fun _ => 0)).map
        (fun s => (s.bitmapSize, s.bitmap.length, s.WIDTH, s.HEIGHT, s._width, s._height)) =
      some (0, 0, 64, 32, 64, 32) ∧
    8 * 8 * 4 = 256 ∧
    (construct 10 8 4 (fun _ => 0)).map (fun s => byteForPixel s 0 0) = some (some (0, 0)) ∧
    wrap8 (((wrap8 ((0 : Int) +
      ((wrap8 ((OP_DIGIT7 : Int) - (OP_DIGIT0 : Int)) : Nat) : Int)) : Nat) : Int) - 8) = 255 := by
  decide

theorem demo11_configured : Configured demo11 1 1 :=
  ⟨by decide, by decide, rfl, rfl, rfl, rfl, rfl, rfl, rfl, by decide, rfl, rfl⟩

/-- C3, the code at the failing input: on a single module with canvas rotation 0, zero offset
and clipping disabled, the pixel `(0, 256)` lies outside the 8 by 8 canvas, yet
`drawPixel(0, 256, 1)` sets bit 0 of byte 0 and `readPixel(0, 256)` then returns 1, because
`byteForPixel` truncates `yy` to a byte before the bounds check. -/
theorem drawPixel_outside_canvas_aliases :
    demo11._tx = 0 ∧ demo11._ty = 0 ∧ demo11.clipRegion.xMin = -1 ∧ demo11.rotation = 0 ∧
    (256 : Int) ≥ (demo11._height : Int) ∧
    demo11.bitmap = [0, 0, 0, 0, 0, 0, 0, 0] ∧
    (drawPixel demo11 0 256 1).bitmap = [1, 0, 0, 0, 0, 0, 0, 0] ∧
    readPixel (drawPixel demo11 0 256 1) 0 256 = 1 ∧
    readPixel (drawPixel demo11 0 0 1) 0 (-256) = 1 := by
  decide

theorem fill_test {k : Nat} (hk : k < 8) : 255 &&& 1 <<< k ≠ 0 := by
  interval_cases k <;> decide

/-- C4: `fillScreen`. After `fillScreen(c)` the bitmap consists of `bitmapSize` bytes, each 0xFF
when `c` is non-zero and 0x00 when `c` is zero, and `bitmapSize` is unchanged; on a grid of 1
to 31 modules with position entries below the number of modules, `readPixel` then returns 1
respectively 0 on every pixel of the canvas, for every module rotation table and every canvas
rotation. -/
theorem fillScreen_spec (s : State) (color : Nat) (hlen : s.bitmap.length = s.bitmapSize) :
    (fillScreen s color).bitmap =
      List.replicate s.bitmapSize (if color ≠ 0 then 0xff else 0) ∧
    (∀ b ∈ (fillScreen s color).bitmap, b = if color ≠ 0 then 0xff else 0) ∧
    (fillScreen s color).bitmap.length = s.bitmap.length ∧
    (fillScreen s color).bitmapSize = s.bitmapSize ∧
    (∀ h v : Nat, Configured s h v → (∀ p ∈ s.matrixPosition, p < h * v) →
      ∀ x y : Nat, x < s._width → y < s._height →
        readPixel (fillScreen s color) (x : Int) (y : Int) = if color ≠ 0 then 1 else 0) := by
  have hbm : (fillScreen s color).bitmap =
      List.replicate s.bitmapSize (if color ≠ 0 then 0xff else 0) := by
    simp only [fillScreen, hlen, Nat.min_self]
    rw [← hlen, List.drop_length, List.append_nil]
  refine ⟨hbm, ?_, ?_, rfl, ?_⟩
  · intro b hb
    rw [hbm] at hb
    exact List.eq_of_mem_replicate hb
  · rw [hbm, List.length_replicate, hlen]
  · intro h v c hpos x y hx hy
    have hp := physical_lt c hx hy
    have hc := chainIndex_lt c hpos hp.1 hp.2
    have hoff : (address s x y).1 < s.bitmapSize := by
      rw [c.bitmapSize_eq]; exact address_lt hc
    have hbfp : byteForPixel (fillScreen s color) (x : Int) (y : Int) = some (address s x y) :=
      byteForPixel_eq c hx hy hc
    unfold readPixel
    rw [hbfp]
    simp only
    rw [hbm, List.getD_eq_getElem _ _ (by rw [List.length_replicate]; exact hoff),
      List.getElem_replicate]
    by_cases hcol : color = 0
    · simp [hcol]
    · simp only [ne_eq, hcol, not_false_eq_true, if_true]
      rw [if_pos (fill_test (and_seven_lt _))]

/-- An instance of `fillScreen`: the pixel `(9, 3)` of the 2 by 1 grid after `fillScreen(1)`. -/
theorem fillScreen_spec_witness :
    demo21.bitmap.length = demo21.bitmapSize ∧ Configured demo21 2 1 ∧
      readPixel (fillScreen demo21 1) ((9 : Nat) : Int) ((3 : Nat) : Int) = 1 :=
  ⟨rfl, demo21_configured,
   (fillScreen_spec demo21 1 rfl).2.2.2.2 2 1 demo21_configured (by decide) 9 3
     (by decide) (by decide)⟩

/-- C5 as stated fails: on the 8 by 8 canvas `clip(0, 0, 100, 100)` enables the clip region
although `xMax` and `yMax` lie outside the canvas. -/
theorem clip_accepts_region_beyond_canvas :
    (clip demo11 0 0 100 100).clipRegion.xMin ≥ 0 ∧
    (clip demo11 0 0 100 100).clipRegion = { xMin := 0, yMin := 0, xMax := 100, yMax := 100 } ∧
    ¬ ((0 < 100 ∧ 0 < 100) ∧ (100 < demo11._width ∧ 100 < demo11._height)) := by
  decide

/-- C5 as amended: validation by `clip`. After `clip(xMin, yMin, xMax, yMax)` the clip region is
enabled, holding exactly the four given values, if and only if `xMin < xMax`, `yMin < yMax`,
`xMin < _width` and `yMin < _height`; in every other case clipping is disabled
(`xMin == -1`). So `clip` and `resetClip` leave the clip region either disabled or well-formed
with its lower corner in the canvas. -/
theorem clip_validation (s : State) (xMin yMin xMax yMax : Nat) :
    ((clip s xMin yMin xMax yMax).clipRegion.xMin ≥ 0 ↔
      (xMin < xMax ∧ yMin < yMax ∧ xMin < s._width ∧ yMin < s._height)) ∧
    ((xMin < xMax ∧ yMin < yMax ∧ xMin < s._width ∧ yMin < s._height) →
      (clip s xMin yMin xMax yMax).clipRegion =
        { xMin := xMin, yMin := yMin, xMax := xMax, yMax := yMax }) ∧
    (¬ (xMin < xMax ∧ yMin < yMax ∧ xMin < s._width ∧ yMin < s._height) →
      (clip s xMin yMin xMax yMax).clipRegion.xMin = -1) ∧
    ClipInvariant (clip s xMin yMin xMax yMax) ∧
    ClipInvariant (resetClip s) := by
  by_cases hc : xMin ≥ xMax ∨ yMin ≥ yMax ∨ xMin ≥ s._width ∨ yMin ≥ s._height
  · have hn : ¬ (xMin < xMax ∧ yMin < yMax ∧ xMin < s._width ∧ yMin < s._height) := by omega
    have he : clip s xMin yMin xMax yMax = resetClip s := by
      unfold clip; rw [if_pos hc]
    rw [he]
    refine ⟨?_, fun h => absurd h hn, fun _ => rfl, Or.inl rfl, Or.inl rfl⟩
    simp only [resetClip, hn, iff_false]
    omega
  · have hp : xMin < xMax ∧ yMin < yMax ∧ xMin < s._width ∧ yMin < s._height := by omega
    have he : clip s xMin yMin xMax yMax =
        { s with clipRegion := { xMin := xMin, yMin := yMin, xMax := xMax, yMax := yMax } } := by
      unfold clip; rw [if_neg hc]
    rw [he]
    refine ⟨?_, fun _ => rfl, fun h => absurd hp h, Or.inr ?_, Or.inl rfl⟩
    · simp only [hp, and_self, iff_true]
      omega
    · simp only
      omega

/-- An instance of the validation: `clip(2, 2, 5, 5)` on the 8 by 8 canvas. -/
theorem clip_validation_witness :
    (2 < 5 ∧ 2 < 5 ∧ 2 < demo11._width ∧ 2 < demo11._height) ∧
      (clip demo11 2 2 5 5).clipRegion = { xMin := 2, yMin := 2, xMax := 5, yMax := 5 } :=
  ⟨by decide, (clip_validation demo11 2 2 5 5).2.1 (by decide)⟩

/-- C6: clip containment. With a clip region enabled and zero translation offset,
`drawPixel(x, y, c)` leaves the state, and so the whole bitmap, unchanged for every 16-bit
`(x, y)` with `x < xMin` or `x > xMax` or `y < yMin` or `y > yMax`, and for every `(x, y)`
with `xMin <= x <= xMax` and `yMin <= y <= yMax` it changes the bitmap exactly as it does with
clipping disabled. After `clip(2, 2, 5, 5)` on an 8 by 8 canvas the draws at `(0, 0)` and
`(6, 6)` change nothing and the draw at `(3, 3)` sets bit 3 of byte 3. -/
theorem clip_containment :
    (∀ (s : State) (x y : Int) (color : Nat), 0 ≤ s.clipRegion.xMin →
      s._tx = 0 → s._ty = 0 → -32768 ≤ x → x < 32768 → -32768 ≤ y → y < 32768 →
      ((x < s.clipRegion.xMin ∨ x > s.clipRegion.xMax ∨
        y < s.clipRegion.yMin ∨ y > s.clipRegion.yMax) → drawPixel s x y color = s) ∧
      ((s.clipRegion.xMin ≤ x ∧ x ≤ s.clipRegion.xMax ∧
        s.clipRegion.yMin ≤ y ∧ y ≤ s.clipRegion.yMax) →
        (drawPixel s x y color).bitmap = (drawPixel (resetClip s) x y color).bitmap ∧
        (drawPixel s x y color).clipRegion = s.clipRegion)) ∧
    (drawPixel (clip demo11 2 2 5 5) 0 0 1).bitmap = demo11.bitmap ∧
    (drawPixel (clip demo11 2 2 5 5) 6 6 1).bitmap = demo11.bitmap ∧
    (drawPixel (clip demo11 2 2 5 5) 3 3 1).bitmap = [0, 0, 0, 8, 0, 0, 0, 0] ∧
    (8 : Nat) = 1 <<< 3 := by
  refine ⟨?_, by decide, by decide, by decide, by decide⟩
  intro s x y color hen htx hty hx1 hx2 hy1 hy2
  have e1 : wrap16 (x + s._tx) = x := by rw [htx]; unfold wrap16; omega
  have e2 : wrap16 (y + s._ty) = y := by rw [hty]; unfold wrap16; omega
  refine ⟨?_, ?_⟩
  · intro hout
    unfold drawPixel
    simp only [e1, e2]
    rw [if_pos ⟨hen, hout⟩]
  · intro hin
    have hbfp : byteForPixel (resetClip s) x y = byteForPixel s x y := rfl
    have e1r : wrap16 (x + (resetClip s)._tx) = x := e1
    have e2r : wrap16 (y + (resetClip s)._ty) = y := e2
    have hxr : (resetClip s).clipRegion.xMin = -1 := rfl
    unfold drawPixel
    simp only [e1, e2, e1r, e2r, hbfp, hxr]
    rw [if_neg (by omega), if_neg (by omega)]
    cases byteForPixel s x y with
    | none => exact ⟨rfl, rfl⟩
    | some p =>
      simp only
      split_ifs <;> exact ⟨rfl, rfl⟩

/-- An instance of the containment: the draw at `(6, 6)` after `clip(2, 2, 5, 5)`. -/
theorem clip_containment_witness :
    (0 : Int) ≤ (clip demo11 2 2 5 5).clipRegion.xMin ∧
      drawPixel (clip demo11 2 2 5 5) 6 6 1 = clip demo11 2 2 5 5 :=
  ⟨by decide,
   (clip_containment.1 (clip demo11 2 2 5 5) 6 6 1 (by decide) rfl rfl
     (by decide) (by decide) (by decide) (by decide)).1 (by decide)⟩

theorem physical_rotation_zero {s : State} (hr : s.rotation = 0) (x y : Nat) :
    physical s x y = (x, y) := by
  unfold physical; rw [if_pos hr]

theorem moduleRotate_zero (a b : Nat) : moduleRotate 0 a b = (a, b) := by
  simp [moduleRotate]

/-- C10: the address formula in chain order. With canvas rotation 0, for every canvas pixel
`(x, y)` whose grid slot holds a chain index `c` below the number of modules, `byteForPixel`
returns the byte offset `8 * c + lx` and the bit index `ly`, where `(lx, ly)` is the image of
`(x & 7, y & 7)` under the rotation of module `c`; the offset lies in `8c .. 8c+7`. With the
identity position table and all module rotations 0 the offset is
`x + 8 * hDisplays * (y >> 3)` and the bit is `y & 7`. On a 2 by 1 grid, `drawPixel(9, 3, 1)`
on a cleared buffer sets bit 3 of byte 9 and nothing else. -/
theorem address_formula :
    (∀ (s : State) (h v x y : Nat), Configured s h v → s.rotation = 0 →
      x < s._width → y < s._height →
      s.matrixPosition.getD (x / 8 + s.hDisplays * (y / 8)) 0 < h * v →
      pixelBit s (x : Int) (y : Int) =
        some (8 * s.matrixPosition.getD (x / 8 + s.hDisplays * (y / 8)) 0 +
            (moduleRotate (s.matrixRotation.getD
              (s.matrixPosition.getD (x / 8 + s.hDisplays * (y / 8)) 0) 0) (x % 8) (y % 8)).1,
          (moduleRotate (s.matrixRotation.getD
              (s.matrixPosition.getD (x / 8 + s.hDisplays * (y / 8)) 0) 0) (x % 8) (y % 8)).2) ∧
      8 * s.matrixPosition.getD (x / 8 + s.hDisplays * (y / 8)) 0 ≤
        8 * s.matrixPosition.getD (x / 8 + s.hDisplays * (y / 8)) 0 +
          (moduleRotate (s.matrixRotation.getD
            (s.matrixPosition.getD (x / 8 + s.hDisplays * (y / 8)) 0) 0) (x % 8) (y % 8)).1 ∧
      8 * s.matrixPosition.getD (x / 8 + s.hDisplays * (y / 8)) 0 +
          (moduleRotate (s.matrixRotation.getD
            (s.matrixPosition.getD (x / 8 + s.hDisplays * (y / 8)) 0) 0) (x % 8) (y % 8)).1 ≤
        8 * s.matrixPosition.getD (x / 8 + s.hDisplays * (y / 8)) 0 + 7) ∧
    (∀ (s : State) (h v x y : Nat), Configured s h v → s.rotation = 0 →
      s.matrixPosition = List.range (h * v) → s.matrixRotation = List.replicate (h * v) 0 →
      x < s._width → y < s._height →
      pixelBit s (x : Int) (y : Int) = some (x + 8 * s.hDisplays * (y / 8), y % 8)) ∧
    demo21.bitmap = [0, 0, 0, 0, 0, 0, 0, 0, 0, 0, 0, 0, 0, 0, 0, 0] ∧
    (drawPixel demo21 9 3 1).bitmap = [0, 0, 0, 0, 0, 0, 0, 0, 0, 8, 0, 0, 0, 0, 0, 0] ∧
    (8 : Nat) = 1 <<< 3 := by
  have main : ∀ (s : State) (h v x y : Nat), Configured s h v → s.rotation = 0 →
      x < s._width → y < s._height →
      s.matrixPosition.getD (x / 8 + s.hDisplays * (y / 8)) 0 < h * v →
      pixelBit s (x : Int) (y : Int) =
        some (8 * s.matrixPosition.getD (x / 8 + s.hDisplays * (y / 8)) 0 +
            (moduleRotate (s.matrixRotation.getD
              (s.matrixPosition.getD (x / 8 + s.hDisplays * (y / 8)) 0) 0) (x % 8) (y % 8)).1,
          (moduleRotate (s.matrixRotation.getD
              (s.matrixPosition.getD (x / 8 + s.hDisplays * (y / 8)) 0) 0) (x % 8) (y % 8)).2) := by
    intro s h v x y c hr hx hy hc
    have hphys := physical_rotation_zero hr x y
    have hc' : chainIndex s (physical s x y).1 (physical s x y).2 < h * v := by
      rw [hphys]; exact hc
    have hq := moduleRotate_lt (s.matrixRotation.getD
      (s.matrixPosition.getD (x / 8 + s.hDisplays * (y / 8)) 0) 0)
      (Nat.mod_lt x (by norm_num : 8 > 0)) (Nat.mod_lt y (by norm_num : 8 > 0))
    unfold pixelBit
    rw [byteForPixel_eq c hx hy hc']
    simp only [address, localXY, chainIndex, gridSlot, hphys, Option.map_some',
      and_seven_eq_mod, Option.some.injEq, Prod.mk.injEq, true_and]
    omega
  refine ⟨?_, ?_, by decide, by decide, by decide⟩
  · intro s h v x y c hr hx hy hc
    have hq := moduleRotate_lt (s.matrixRotation.getD
      (s.matrixPosition.getD (x / 8 + s.hDisplays * (y / 8)) 0) 0)
      (Nat.mod_lt x (by norm_num : 8 > 0)) (Nat.mod_lt y (by norm_num : 8 > 0))
    exact ⟨main s h v x y c hr hx hy hc, by omega, by omega⟩
  · intro s h v x y c hr hpos hrot hx hy
    have hp := physical_lt c hx hy
    rw [physical_rotation_zero hr] at hp
    have hslot : x / 8 + s.hDisplays * (y / 8) < h * v := by
      have := gridSlot_lt hp.1 hp.2
      rw [c.hDisplays_eq]; exact this
    have hget : s.matrixPosition.getD (x / 8 + s.hDisplays * (y / 8)) 0 =
        x / 8 + s.hDisplays * (y / 8) := by
      rw [hpos, List.getD_eq_getElem _ _ (by rw [List.length_range]; exact hslot),
        List.getElem_range]
    have hrget : s.matrixRotation.getD (x / 8 + s.hDisplays * (y / 8)) 0 = 0 := by
      rw [hrot, List.getD_eq_getElem _ _ (by rw [List.length_replicate]; exact hslot),
        List.getElem_replicate]
    rw [main s h v x y c hr hx hy (by rw [hget]; exact hslot), hget, hrget, moduleRotate_zero]
    have e : 8 * s.hDisplays * (y / 8) = 8 * (s.hDisplays * (y / 8)) := by ring
    rw [e]
    simp only [Option.some.injEq, Prod.mk.injEq, and_true]
    omega

/-- An instance of the address formula: the pixel `(9, 3)` of the 2 by 1 grid. -/
theorem address_formula_witness :
    Configured demo21 2 1 ∧ demo21.rotation = 0 ∧ 9 < demo21._width ∧ 3 < demo21._height ∧
      pixelBit demo21 ((9 : Nat) : Int) ((3 : Nat) : Int) = some (9 + 8 * demo21.hDisplays * (3 / 8), 3 % 8) :=
  ⟨demo21_configured, rfl, by decide, by decide,
   address_formula.2.1 demo21 2 1 9 3 demo21_configured rfl rfl rfl (by decide) (by decide)⟩

theorem moduleRotate_compose_cases :
    ∀ a < 4, ∀ b < 4, ∀ x < 8, ∀ y < 8,
      moduleRotate a (moduleRotate b x y).1 (moduleRotate b x y).2 =
        moduleRotate ((a + b) % 4) x y := by
  decide

/-- C11: the module rotations are quarter turns. For module rotations `a` and `b` in 0..3 and
local coordinates in 0..7, the transform of `byteForPixel` for `a` applied after the one for
`b` is the transform for `(a + b) mod 4`. So rotation 0 is the identity, rotation 2 is its own
inverse, rotations 1 and 3 undo each other, and every rotation maps the 8 by 8 cell onto
itself one to one. -/
theorem moduleRotate_quarter_turns :
    (∀ a b x y : Nat, a < 4 → b < 4 → x < 8 → y < 8 →
      moduleRotate a (moduleRotate b x y).1 (moduleRotate b x y).2 =
        moduleRotate ((a + b) % 4) x y) ∧
    (∀ x y : Nat, x < 8 → y < 8 → moduleRotate 0 x y = (x, y)) ∧
    (∀ x y : Nat, x < 8 → y < 8 →
      moduleRotate 2 (moduleRotate 2 x y).1 (moduleRotate 2 x y).2 = (x, y)) ∧
    (∀ x y : Nat, x < 8 → y < 8 →
      moduleRotate 1 (moduleRotate 3 x y).1 (moduleRotate 3 x y).2 = (x, y) ∧
      moduleRotate 3 (moduleRotate 1 x y).1 (moduleRotate 1 x y).2 = (x, y)) ∧
    (∀ r : Nat, r < 4 →
      (∀ x y : Nat, x < 8 → y < 8 → (moduleRotate r x y).1 < 8 ∧ (moduleRotate r x y).2 < 8) ∧
      (∀ x y x1 y1 : Nat, x < 8 → y < 8 → x1 < 8 → y1 < 8 →
        moduleRotate r x y = moduleRotate r x1 y1 → x = x1 ∧ y = y1) ∧
      (∀ u w : Nat, u < 8 → w < 8 →
        ∃ x y : Nat, x < 8 ∧ y < 8 ∧ moduleRotate r x y = (u, w))) := by
  have hcomp : ∀ a b x y : Nat, a < 4 → b < 4 → x < 8 → y < 8 →
      moduleRotate a (moduleRotate b x y).1 (moduleRotate b x y).2 =
        moduleRotate ((a + b) % 4) x y :=
    fun a b x y ha hb hx hy => moduleRotate_compose_cases a ha b hb x hx y hy
  have hzero : ∀ x y : Nat, moduleRotate 0 x y = (x, y) := moduleRotate_zero
  refine ⟨hcomp, fun x y _ _ => hzero x y, ?_, ?_, ?_⟩
  · intro x y hx hy
    rw [hcomp 2 2 x y (by decide) (by decide) hx hy]
    exact hzero x y
  · intro x y hx hy
    refine ⟨?_, ?_⟩
    · rw [hcomp 1 3 x y (by decide) (by decide) hx hy]
      exact hzero x y
    · rw [hcomp 3 1 x y (by decide) (by decide) hx hy]
      exact hzero x y
  · intro r hr
    refine ⟨fun x y hx hy => moduleRotate_lt r hx hy,
      fun x y x1 y1 hx hy hx1 hy1 he => moduleRotate_inj r hx hy hx1 hy1 he, ?_⟩
    intro u w hu hw
    have hinv : (4 - r) % 4 < 4 := Nat.mod_lt _ (by decide)
    have hb := moduleRotate_lt ((4 - r) % 4) hu hw
    refine ⟨(moduleRotate ((4 - r) % 4) u w).1, (moduleRotate ((4 - r) % 4) u w).2,
      hb.1, hb.2, ?_⟩
    rw [hcomp r ((4 - r) % 4) u w hr hinv hu hw]
    have hsum : (r + (4 - r) % 4) % 4 = 0 := by omega
    rw [hsum]
    exact hzero u w

/-- An instance of the quarter turns: rotation 1 after rotation 2 on the cell `(1, 3)`. -/
theorem moduleRotate_quarter_turns_witness :
    (1 < 4 ∧ 2 < 4 ∧ 1 < 8 ∧ 3 < 8) ∧
      moduleRotate 1 (moduleRotate 2 1 3).1 (moduleRotate 2 1 3).2 =
        moduleRotate ((1 + 2) % 4) 1 3 :=
  ⟨by decide,
   moduleRotate_quarter_turns.1 1 2 1 3 (by decide) (by decide) (by decide) (by decide)⟩

theorem controlBurst_replicate (n op d : Nat) :
    controlBurst n op d =
      [BusEvent.csLow] ++
        (List.replicate n [BusEvent.transfer op, BusEvent.transfer d]).flatten ++
        [BusEvent.csHigh] := by
  unfold controlBurst burst
  congr 2
  induction n with
  | zero => simp
  | succ n ih =>
    rw [List.range_succ, List.flatMap_append, ih, List.replicate_succ']
    simp

theorem shutdown_wake_run (s : State) (n : Nat) (hn1 : 1 ≤ n) (hn : n ≤ 31)
    (hsize : s.bitmapSize = 8 * n) :
    shutdown s false =
      some { s with
        bus := s.bus ++ (controlBurst n OP_DISPLAYTEST 0 ++ controlBurst n OP_SCANLIMIT 7 ++
          controlBurst n OP_DECODEMODE 0 ++ controlBurst n OP_SHUTDOWN 1) } := by
  simp only [shutdown, Bool.false_eq_true, if_false]
  rw [spiTransfer_ctrl s n OP_DISPLAYTEST 0 hn1 hn hsize (by decide) (by decide)]
  simp only [Option.some_bind]
  rw [spiTransfer_ctrl _ n OP_SCANLIMIT 7 hn1 hn ?_ (by decide) (by decide)]
  · simp only [Option.some_bind]
    rw [spiTransfer_ctrl _ n OP_DECODEMODE 0 hn1 hn ?_ (by decide) (by decide)]
    · simp only [Option.some_bind]
      rw [spiTransfer_ctrl _ n OP_SHUTDOWN 1 hn1 hn ?_ (by decide) (by decide)]
      · simp only [List.append_assoc]
      · exact hsize
    · exact hsize
  · exact hsize

/-- C12: the shutdown state machine. For a chain of 1 to 31 modules, `shutdown(false)` returns
and appends to the bus exactly four control bursts, in the order DISPLAY_TEST=0, SCAN_LIMIT=7,
DECODE_MODE=0, SHUTDOWN=1, each a broadcast of the pair to all `n` modules; `shutdown(true)`
appends exactly one burst, SHUTDOWN=0. Apart from the bus log neither call changes the state:
the bitmap, the position and rotation tables and the clip state are as before. -/
theorem shutdown_sequence (s : State) (n : Nat) (hn1 : 1 ≤ n) (hn : n ≤ 31)
    (hsize : s.bitmapSize = 8 * n) :
    shutdown s false =
      some { s with
        bus := s.bus ++ (controlBurst n 15 0 ++ controlBurst n 11 7 ++
          controlBurst n 9 0 ++ controlBurst n 12 1) } ∧
    shutdown s true = some { s with bus := s.bus ++ controlBurst n 12 0 } ∧
    (∀ op d : Nat, controlBurst n op d =
      [BusEvent.csLow] ++
        (List.replicate n [BusEvent.transfer op, BusEvent.transfer d]).flatten ++
        [BusEvent.csHigh]) ∧
    (∀ (b : Bool) (t : State), shutdown s b = some t →
      t.bitmap = s.bitmap ∧ t.matrixPosition = s.matrixPosition ∧
      t.matrixRotation = s.matrixRotation ∧ t.clipRegion = s.clipRegion) := by
  have hwake := shutdown_wake_run s n hn1 hn hsize
  have hsleep : shutdown s true = some { s with bus := s.bus ++ controlBurst n 12 0 } := by
    simp only [shutdown, if_true]
    exact spiTransfer_ctrl s n OP_SHUTDOWN 0 hn1 hn hsize (by decide) (by decide)
  refine ⟨hwake, hsleep, fun op d => controlBurst_replicate n op d, ?_⟩
  intro b t ht
  cases b
  · rw [hwake] at ht
    cases ht
    exact ⟨rfl, rfl, rfl, rfl⟩
  · rw [hsleep] at ht
    cases ht
    exact ⟨rfl, rfl, rfl, rfl⟩

/-- An instance of the shutdown sequence: waking the chain of 3 modules. -/
theorem shutdown_sequence_witness :
    (1 ≤ 3 ∧ 3 ≤ 31 ∧ demo3x1.bitmapSize = 8 * 3) ∧
      shutdown demo3x1 false =
        some { demo3x1 with
          bus := demo3x1.bus ++ (controlBurst 3 15 0 ++ controlBurst 3 11 7 ++
            controlBurst 3 9 0 ++ controlBurst 3 12 1) } ∧
      (shutdown demo3x1 true).map (fun t => t.bitmap) = some demo3x1.bitmap :=
  ⟨⟨by decide, by decide, rfl⟩,
   (shutdown_sequence demo3x1 3 (by decide) (by decide) rfl).1,
   by
     have h := (shutdown_sequence demo3x1 3 (by decide) (by decide) rfl).2.1
     rw [h]; rfl⟩

theorem fillScreen_bitmap_eq (s : State) (color : Nat) (hlen : s.bitmap.length = s.bitmapSize) :
    (fillScreen s color).bitmap =
      List.replicate s.bitmapSize (if color ≠ 0 then 0xff else 0) := by
  simp only [fillScreen, hlen, Nat.min_self]
  rw [← hlen, List.drop_length, List.append_nil]

theorem write_run (s : State) (n : Nat) (hn1 : 1 ≤ n) (hn : n ≤ 31)
    (hsize : s.bitmapSize = 8 * n) :
    write s = some { s with bus := s.bus ++ writeFrames s.bitmap n } := by
  unfold write OP_DIGIT7
  rw [writeLoop_run n hn1 hn 8 s (by omega) hsize]
  rfl

theorem rowBurst_zero (n m op : Nat) (hm : 8 * n ≤ m) (hop : 1 ≤ op) (hop8 : op ≤ 8) :
    rowBurst (List.replicate m 0) n op = burst op (fun _ => 0) n := by
  unfold rowBurst burst
  congr 2
  apply List.flatMap_congr
  intro k hk
  have hk' : k < n := List.mem_range.mp hk
  have hidx : 8 * (n - 1 - k) + (op - 1) < (List.replicate m 0).length := by
    rw [List.length_replicate]; omega
  simp only
  rw [List.getD_eq_getElem _ _ hidx, List.getElem_replicate]

theorem reset_run (s : State) (n : Nat) (hn1 : 1 ≤ n) (hn : n ≤ 31)
    (hsize : s.bitmapSize = 8 * n) (hlen : s.bitmap.length = s.bitmapSize) :
    reset s =
      some { s with
        bitmap := List.replicate (8 * n) 0
        bus := s.bus ++ resetTraffic n } := by
  have hfill : fillScreen s 0 = { s with bitmap := List.replicate (8 * n) 0 } := by
    have hb := fillScreen_bitmap_eq s 0 hlen
    rw [hsize] at hb
    simp only [ne_eq, not_true_eq_false, if_false] at hb
    unfold fillScreen at hb ⊢
    simp only at hb
    rw [hb]
  unfold reset
  rw [hfill, spiTransfer_ctrl _ n OP_DISPLAYTEST 0 hn1 hn ?_ (by decide) (by decide)]
  · simp only [Option.some_bind]
    rw [spiTransfer_ctrl _ n OP_SCANLIMIT 7 hn1 hn ?_ (by decide) (by decide)]
    · simp only [Option.some_bind]
      rw [spiTransfer_ctrl _ n OP_DECODEMODE 0 hn1 hn ?_ (by decide) (by decide)]
      · simp only [Option.some_bind]
        rw [write_run _ n hn1 hn ?_]
        · simp only [Option.some_bind]
          rw [shutdown_wake_run _ n hn1 hn ?_]
          · simp only [Option.some_bind, setIntensity]
            rw [spiTransfer_ctrl _ n OP_INTENSITY 7 hn1 hn ?_ (by decide) (by decide)]
            · simp only [resetTraffic, List.append_assoc, OP_DISPLAYTEST, OP_SCANLIMIT,
                OP_DECODEMODE, OP_SHUTDOWN, OP_INTENSITY]
            · exact hsize
          · exact hsize
        · exact hsize
      · exact hsize
    · exact hsize
  · exact hsize

/-- C13: `reset()`. From every state of a chain of 1 to 31 modules whose bitmap has
`bitmapSize` bytes, `reset()` returns with every bitmap byte 0 and with nothing else changed
but the bus log, to which it appends DISPLAY_TEST=0, SCAN_LIMIT=7, DECODE_MODE=0, the eight row
bursts, DISPLAY_TEST=0, SCAN_LIMIT=7, DECODE_MODE=0, SHUTDOWN=1 and INTENSITY=7, in that order.
Every row burst carries only data 0; SHUTDOWN=1 follows the last DISPLAY_TEST, SCAN_LIMIT and
DECODE_MODE bursts, and INTENSITY=7 is the very last burst. -/
theorem reset_sequence (s : State) (n : Nat) (hn1 : 1 ≤ n) (hn : n ≤ 31)
    (hsize : s.bitmapSize = 8 * n) (hlen : s.bitmap.length = s.bitmapSize) :
    reset s =
      some { s with
        bitmap := List.replicate (8 * n) 0
        bus := s.bus ++
          (controlBurst n 15 0 ++ controlBurst n 11 7 ++ controlBurst n 9 0 ++
            writeFrames (List.replicate (8 * n) 0) n ++
            (controlBurst n 15 0 ++ controlBurst n 11 7 ++ controlBurst n 9 0 ++
              controlBurst n 12 1) ++
            controlBurst n 10 7) } ∧
    (∀ t, reset s = some t → ∀ b ∈ t.bitmap, b = 0) ∧
    writeFrames (List.replicate (8 * n) 0) n =
      [8, 7, 6, 5, 4, 3, 2, 1].flatMap (fun op => burst op (fun _ => 0) n) ∧
    (∀ op d : Nat, controlBurst n op d =
      [BusEvent.csLow] ++
        (List.replicate n [BusEvent.transfer op, BusEvent.transfer d]).flatten ++
        [BusEvent.csHigh]) := by
  have hrun := reset_run s n hn1 hn hsize hlen
  refine ⟨hrun, ?_, ?_, fun op d => controlBurst_replicate n op d⟩
  · intro t ht b hb
    rw [hrun] at ht
    cases ht
    exact List.eq_of_mem_replicate hb
  · unfold writeFrames
    apply List.flatMap_congr
    intro op hop
    have hop' : 1 ≤ op ∧ op ≤ 8 := by
      simp only [List.mem_cons, List.mem_singleton, List.not_mem_nil, or_false] at hop
      omega
    exact rowBurst_zero n (8 * n) op (le_refl _) hop'.1 hop'.2

/-- An instance of `reset()`: the 2 by 1 grid after a pixel was drawn. -/
theorem reset_sequence_witness :
    (1 ≤ 2 ∧ 2 ≤ 31 ∧ (drawPixel demo21 9 3 1).bitmapSize = 8 * 2 ∧
      (drawPixel demo21 9 3 1).bitmap.length = (drawPixel demo21 9 3 1).bitmapSize) ∧
      (reset (drawPixel demo21 9 3 1)).map (fun t => t.bitmap) =
        some (List.replicate (8 * 2) 0) :=
  ⟨⟨by decide, by decide, by decide, by decide⟩,
   by
     have h := (reset_sequence (drawPixel demo21 9 3 1) 2 (by decide) (by decide)
       (by decide) (by decide)).1
     rw [h]; rfl⟩

theorem demo1x2_configured : Configured demo1x2 1 2 :=
  ⟨by decide, by decide, rfl, rfl, rfl, rfl, rfl, rfl, rfl, by decide, rfl, rfl⟩

theorem demoFocused_configured : Configured demoFocused 1 2 :=
  ⟨by decide, by decide, rfl, rfl, rfl, rfl, rfl, rfl, rfl, by decide, rfl, rfl⟩

theorem Configured.width_le {s : State} {h v : Nat} (c : Configured s h v) : s._width ≤ 248 := by
  have := c.width_eq; have := c.WIDTH_eq; have := c.HEIGHT_eq
  have := c.h_le; have := c.v_le
  split_ifs at * <;> omega

theorem Configured.height_le {s : State} {h v : Nat} (c : Configured s h v) :
    s._height ≤ 248 := by
  have := c.height_eq; have := c.WIDTH_eq; have := c.HEIGHT_eq
  have := c.h_le; have := c.v_le
  split_ifs at * <;> omega

theorem drawPixel_translated {s : State} {h v : Nat} (c : Configured s h v)
    (hclip : s.clipRegion.xMin < 0) {x y : Int} {px py : Nat}
    (hpx : x + s._tx = (px : Int)) (hpy : y + s._ty = (py : Int))
    (hx : px < s._width) (hy : py < s._height)
    (hc : chainIndex s (physical s px py).1 (physical s px py).2 < h * v) (color : Nat) :
    drawPixel s x y color =
      { s with
        bitmap := s.bitmap.set (address s px py).1
          (if color ≠ 0 then
            s.bitmap.getD (address s px py).1 0 ||| 1 <<< ((address s px py).2 &&& 7)
           else
            s.bitmap.getD (address s px py).1 0 &&& (255 ^^^ 1 <<< ((address s px py).2 &&& 7))) } := by
  have hw := c.width_le
  have hh := c.height_le
  have e1 : wrap16 (x + s._tx) = px := by rw [hpx]; unfold wrap16; omega
  have e2 : wrap16 (y + s._ty) = py := by rw [hpy]; unfold wrap16; omega
  unfold drawPixel
  simp only [e1, e2]
  rw [if_neg (by omega), byteForPixel_eq c hx hy hc]
  simp only
  split_ifs <;> rfl

theorem readPixel_written {s : State} {h v : Nat} (c : Configured s h v)
    {px py : Nat} (hx : px < s._width) (hy : py < s._height)
    (hc : chainIndex s (physical s px py).1 (physical s px py).2 < h * v) (color : Nat) :
    readPixel
      { s with
        bitmap := s.bitmap.set (address s px py).1
          (if color ≠ 0 then
            s.bitmap.getD (address s px py).1 0 ||| 1 <<< ((address s px py).2 &&& 7)
           else
            s.bitmap.getD (address s px py).1 0 &&& (255 ^^^ 1 <<< ((address s px py).2 &&& 7))) }
      (px : Int) (py : Int) = if color ≠ 0 then 1 else 0 := by
  have hlt : (address s px py).1 < s.bitmap.length := by
    rw [c.bitmap_len]; exact address_lt hc
  unfold readPixel
  rw [byteForPixel_bitmap, byteForPixel_eq c hx hy hc]
  simp only
  rw [getD_set_self _ hlt]
  by_cases hcol : color = 0
  · simp only [hcol, ne_eq, not_true_eq_false, if_false]
    rw [clearBit_test _ (and_seven_lt _)]
    simp
  · simp only [ne_eq, hcol, not_false_eq_true, if_true]
    rw [if_pos (setBit_test _ _)]

/-- C14: the translation asymmetry between writing and reading. On a grid of 1 to 31 modules
with position entries below the number of modules, for every translation offset, clipping
disabled, every canvas rotation and every `(x, y)` whose translate `(x + _tx, y + _ty)` lies in
the canvas, `readPixel(x + _tx, y + _ty)` after `drawPixel(x, y, c)` returns 1 when `c` is
non-zero and 0 otherwise; and `readPixel` returns the same value whatever the offset and the
clip state are. With `_ty = 8` on a 1 by 2 grid, `drawPixel(0, 0, 1)` is read back at `(0, 8)`
and not at `(0, 0)`. -/
theorem readPixel_ignores_translation :
    (∀ (s : State) (h v : Nat) (x y : Int) (color : Nat), Configured s h v →
      (∀ p ∈ s.matrixPosition, p < h * v) → s.clipRegion.xMin < 0 →
      0 ≤ x + s._tx → x + s._tx < (s._width : Int) →
      0 ≤ y + s._ty → y + s._ty < (s._height : Int) →
      readPixel (drawPixel s x y color) (x + s._tx) (y + s._ty) =
        if color ≠ 0 then 1 else 0) ∧
    (∀ (s : State) (tx ty : Int) (cr : ClipRegion) (x y : Int),
      readPixel { s with _tx := tx, _ty := ty, clipRegion := cr } x y = readPixel s x y) ∧
    readPixel (drawPixel demoFocused 0 0 1) 0 8 = 1 ∧
    readPixel (drawPixel demoFocused 0 0 1) 0 0 = 0 := by
  refine ⟨?_, fun s tx ty cr x y => rfl, by decide, by decide⟩
  intro s h v x y color c hpos hclip hx0 hx hy0 hy
  obtain ⟨px, hpx⟩ := Int.eq_ofNat_of_zero_le hx0
  obtain ⟨py, hpy⟩ := Int.eq_ofNat_of_zero_le hy0
  have hx' : px < s._width := by omega
  have hy' : py < s._height := by omega
  have hp := physical_lt c hx' hy'
  have hc := chainIndex_lt c hpos hp.1 hp.2
  rw [drawPixel_translated c hclip hpx hpy hx' hy' hc, hpx, hpy]
  exact readPixel_written c hx' hy' hc color

/-- An instance of the asymmetry: the 1 by 2 grid with `_ty = 8`, drawing at `(0, 0)`. -/
theorem readPixel_ignores_translation_witness :
    Configured demoFocused 1 2 ∧ demoFocused._ty = 8 ∧
      readPixel (drawPixel demoFocused 0 0 1)
        (0 + demoFocused._tx)
        (0 + demoFocused._ty) = if 1 ≠ 0 then 1 else 0 :=
  ⟨demoFocused_configured, rfl,
   readPixel_ignores_translation.1 demoFocused 1 2 0 0 1 demoFocused_configured
     (by decide) (by decide) (by decide) (by decide) (by decide) (by decide)⟩

theorem getD_set_ne (l : List Nat) {i j : Nat} (a : Nat) (hij : i ≠ j) :
    (l.set i a).getD j 0 = l.getD j 0 := by
  simp only [List.getD_eq_getElem?_getD]
  rw [List.getElem?_set_ne hij]

theorem setBit_other (b : Nat) {k j : Nat} (hk : k < 8) (hj : j < 8) (hkj : j ≠ k) :
    (b ||| 1 <<< k) &&& 1 <<< j = b &&& 1 <<< j := by
  have hz : 1 <<< j &&& 1 <<< k = 0 := by
    interval_cases k <;> interval_cases j <;> first | decide | exact absurd rfl hkj
  rw [Nat.and_comm, Nat.and_or_distrib_left, hz, Nat.or_zero, Nat.and_comm]

theorem clearBit_other (b : Nat) {k j : Nat} (hk : k < 8) (hj : j < 8) (hkj : j ≠ k) :
    (b &&& (255 ^^^ 1 <<< k)) &&& 1 <<< j = b &&& 1 <<< j := by
  rw [Nat.and_assoc]
  have hz : (255 ^^^ 1 <<< k) &&& 1 <<< j = 1 <<< j := by
    interval_cases k <;> interval_cases j <;> first | decide | exact absurd rfl hkj
  rw [hz]

theorem written_other_bit (l : List Nat) (off k : Nat) (hk : k < 8) (color : Nat)
    (i j : Nat) (hj : j < 8) (hne : (i, j) ≠ (off, k)) :
    (l.set off (if color ≠ 0 then l.getD off 0 ||| 1 <<< k
      else l.getD off 0 &&& (255 ^^^ 1 <<< k))).getD i 0 &&& 1 <<< j =
      l.getD i 0 &&& 1 <<< j := by
  by_cases hio : off = i
  · subst hio
    have hjk : j ≠ k := fun h => hne (by rw [h])
    by_cases hlt : off < l.length
    · rw [getD_set_self _ hlt]
      split_ifs
      · exact setBit_other _ hk hj hjk
      · exact clearBit_other _ hk hj hjk
    · have hset : l.set off (if color ≠ 0 then l.getD off 0 ||| 1 <<< k
          else l.getD off 0 &&& (255 ^^^ 1 <<< k)) = l :=
        List.set_eq_of_length_le (by omega)
      rw [hset]
  · rw [getD_set_ne _ _ hio]

theorem readPixel_written_other {s : State} {h v : Nat} (c : Configured s h v)
    (hpos : ∀ p ∈ s.matrixPosition, p < h * v) (hnd : s.matrixPosition.Nodup)
    {px py : Nat} (hx : px < s._width) (hy : py < s._height) (color : Nat)
    {x1 y1 : Nat} (hx1 : x1 < s._width) (hy1 : y1 < s._height) (hne : (x1, y1) ≠ (px, py)) :
    readPixel
      { s with
        bitmap := s.bitmap.set (address s px py).1
          (if color ≠ 0 then
            s.bitmap.getD (address s px py).1 0 ||| 1 <<< ((address s px py).2 &&& 7)
           else
            s.bitmap.getD (address s px py).1 0 &&& (255 ^^^ 1 <<< ((address s px py).2 &&& 7))) }
      (x1 : Int) (y1 : Int) = readPixel s (x1 : Int) (y1 : Int) := by
  have hp1 := physical_lt c hx1 hy1
  have hc1 := chainIndex_lt c hpos hp1.1 hp1.2
  have hdiff : ((address s x1 y1).1, (address s x1 y1).2 &&& 7) ≠
      ((address s px py).1, (address s px py).2 &&& 7) := by
    intro he
    simp only [Prod.mk.injEq, and_seven_eq_mod] at he
    have := address_inj c hnd hx1 hy1 hx hy he.1 he.2
    exact hne (Prod.ext this.1 this.2)
  unfold readPixel
  rw [byteForPixel_bitmap, byteForPixel_eq c hx1 hy1 hc1]
  simp only
  rw [written_other_bit s.bitmap _ _ (and_seven_lt _) color _ _ (and_seven_lt _) hdiff]

/-- C16: `drawPixel` touches exactly one bit. On a grid of 1 to 31 modules whose position table
is a permutation of the chain indices, with zero translation and clipping disabled, for every
canvas pixel `(x, y)`: among the bits 0..7 of the bytes of the bitmap, `drawPixel(x, y, c)`
changes at most the bit that `byteForPixel` addresses for `(x, y)`; the bitmap keeps its
length; `readPixel` returns the same value before and after on every other canvas pixel; and
nothing else in the state changes, in particular the position table, the rotation table and
the clip state. -/
theorem drawPixel_single_bit (s : State) (h v : Nat) (c : Configured s h v)
    (hperm : s.matrixPosition.Perm (List.range (h * v)))
    (htx : s._tx = 0) (hty : s._ty = 0) (hclip : s.clipRegion.xMin < 0)
    (x y : Nat) (hx : x < s._width) (hy : y < s._height) (color : Nat) :
    ∃ off bit, pixelBit s (x : Int) (y : Int) = some (off, bit) ∧
      (∀ i j : Nat, j < 8 → (i, j) ≠ (off, bit) →
        (drawPixel s (x : Int) (y : Int) color).bitmap.getD i 0 &&& 1 <<< j =
          s.bitmap.getD i 0 &&& 1 <<< j) ∧
      (drawPixel s (x : Int) (y : Int) color).bitmap.length = s.bitmap.length ∧
      (∀ x1 y1 : Nat, x1 < s._width → y1 < s._height → (x1, y1) ≠ (x, y) →
        readPixel (drawPixel s (x : Int) (y : Int) color) (x1 : Int) (y1 : Int) =
          readPixel s (x1 : Int) (y1 : Int)) ∧
      (∃ bm, drawPixel s (x : Int) (y : Int) color = { s with bitmap := bm }) ∧
      (drawPixel s (x : Int) (y : Int) color).matrixPosition = s.matrixPosition ∧
      (drawPixel s (x : Int) (y : Int) color).matrixRotation = s.matrixRotation ∧
      (drawPixel s (x : Int) (y : Int) color).clipRegion = s.clipRegion := by
  obtain ⟨hpos, hnd⟩ := perm_range_bounds hperm
  have hp := physical_lt c hx hy
  have hc := chainIndex_lt c hpos hp.1 hp.2
  have hdraw := drawPixel_unclipped c htx hty hclip hx hy hc color
  have hk : (address s x y).2 &&& 7 < 8 := and_seven_lt _
  refine ⟨(address s x y).1, (address s x y).2 % 8, pixelBit_eq c hpos hx hy, ?_, ?_, ?_,
    ⟨_, hdraw⟩, ?_, ?_, ?_⟩
  · intro i j hj hne
    rw [hdraw]
    rw [← and_seven_eq_mod] at hne
    exact written_other_bit s.bitmap _ _ hk color i j hj hne
  · rw [hdraw]; simp
  · intro x1 y1 hx1 hy1 hne
    rw [hdraw]
    exact readPixel_written_other c hpos hnd hx hy color hx1 hy1 hne
  · rw [hdraw]
  · rw [hdraw]
  · rw [hdraw]

/-- An instance of the frame of `drawPixel`: drawing `(9, 3)` on the 2 by 1 grid leaves the
pixel `(9, 4)` as it was. -/
theorem drawPixel_single_bit_witness :
    Configured demo21 2 1 ∧ demo21.matrixPosition.Perm (List.range (2 * 1)) ∧
      readPixel (drawPixel demo21 ((9 : Nat) : Int) ((3 : Nat) : Int) 1)
        ((9 : Nat) : Int) ((4 : Nat) : Int) = readPixel demo21 ((9 : Nat) : Int) ((4 : Nat) : Int) :=
  ⟨demo21_configured, List.Perm.refl _,
   (drawPixel_single_bit demo21 2 1 demo21_configured (List.Perm.refl _) rfl rfl (by decide)
     9 3 (by decide) (by decide) 1).elim
     (fun _ hoff => hoff.elim
       (fun _ hbit => hbit.2.2.2.1 9 4 (by decide) (by decide) (by decide)))⟩

theorem Configured.focusOnLine {s : State} {h v : Nat} (c : Configured s h v) (line : Int) :
    Configured (focusOnLine s line) h v :=
  ⟨c.grid_pos, c.grid_le, c.hDisplays_eq, c.WIDTH_eq, c.HEIGHT_eq, c.bitmapSize_eq,
   c.bitmap_len, c.position_len, c.rotation_len, c.rotation_lt, c.width_eq, c.height_eq⟩

theorem Configured.height_rows {s : State} {h v : Nat} (c : Configured s h v)
    (hrot : s.rotation % 2 = 0) : s._height = 8 * v := by
  have hh := c.height_eq
  have hH := c.HEIGHT_eq
  have : ¬ s.rotation % 2 = 1 := by omega
  rw [if_neg this] at hh
  omega

theorem drawPixel_frame (s : State) (x y : Int) (color : Nat) :
    ∃ bm, drawPixel s x y color = { s with bitmap := bm } := by
  unfold drawPixel
  simp only
  split_ifs <;>
    first
    | exact ⟨s.bitmap, rfl⟩
    | (split <;> first | exact ⟨s.bitmap, rfl⟩ | exact ⟨_, rfl⟩)

/-- C15: focus isolation. On a grid of 1 to 31 modules with at least 2 module rows, a
permutation as position table, an unturned canvas height, no horizontal offset and clipping
disabled: after `focusOnLine(1)`, `drawPixel(0, 0, 1)` writes the bitmap exactly as
`drawPixel(0, 8, 1)` does without focus, so the canvas pixel `(0, 8)` reads 1 and the canvas
pixel `(0, 0)` reads what it read before. `focusedHeight()` is 8 while a line is focused and
`_height` otherwise. A following `swapFocus(-1)` returns 1, leaves the vertical offset 0 and
`currentFocusedLine() == -1`, and gives back the state before the focus when that state was
unfocused. -/
theorem focus_isolation :
    (∀ (s : State) (h v : Nat), Configured s h v →
      s.matrixPosition.Perm (List.range (h * v)) → 2 ≤ v → s.rotation % 2 = 0 →
      s._tx = 0 → s.clipRegion.xMin < 0 →
      (drawPixel (focusOnLine s 1) 0 0 1).bitmap =
        (drawPixel { s with _ty := 0 } 0 8 1).bitmap ∧
      readPixel (drawPixel (focusOnLine s 1) 0 0 1) 0 8 = 1 ∧
      readPixel (drawPixel (focusOnLine s 1) 0 0 1) 0 0 = readPixel s 0 0) ∧
    (∀ s : State, (s.focusedLine ≠ NoFocus → focusedHeight s = 8) ∧
      (s.focusedLine = NoFocus → focusedHeight s = (s._height : Int))) ∧
    (∀ s : State, focusedHeight (focusOnLine s 1) = 8 ∧
      focusedHeight (focusOnLine s NoFocus) = (s._height : Int)) ∧
    (∀ (s : State) (x y : Int) (color : Nat),
      (swapFocus (drawPixel (focusOnLine s 1) x y color) (-1)).1 = 1 ∧
      (swapFocus (drawPixel (focusOnLine s 1) x y color) (-1)).2._ty = 0 ∧
      currentFocusedLine (swapFocus (drawPixel (focusOnLine s 1) x y color) (-1)).2 = -1) ∧
    (∀ s : State, s.focusedLine = NoFocus → s._ty = 0 →
      (swapFocus (focusOnLine s 1) (-1)).1 = 1 ∧ (swapFocus (focusOnLine s 1) (-1)).2 = s) := by
  refine ⟨?_, ?_, ?_, ?_, ?_⟩
  · intro s h v c hperm hv hrot htx hclip
    obtain ⟨hpos, hnd⟩ := perm_range_bounds hperm
    have hheight := c.height_rows hrot
    have hwidth : 0 < s._width := by
      have hw := c.width_eq
      have hW := c.WIDTH_eq
      have hpos1 := c.h_pos
      have : ¬ s.rotation % 2 = 1 := by omega
      rw [if_neg this] at hw
      omega
    have hx : (0 : Nat) < s._width := hwidth
    have hy : (8 : Nat) < s._height := by omega
    have hy0 : (0 : Nat) < s._height := by omega
    have hp := physical_lt c hx hy
    have hc := chainIndex_lt c hpos hp.1 hp.2
    have cf := c.focusOnLine 1
    have c0 : Configured { s with _ty := 0 } h v :=
      ⟨c.grid_pos, c.grid_le, c.hDisplays_eq, c.WIDTH_eq, c.HEIGHT_eq, c.bitmapSize_eq,
       c.bitmap_len, c.position_len, c.rotation_len, c.rotation_lt, c.width_eq, c.height_eq⟩
    have hfx : (0 : Int) + (focusOnLine s 1)._tx = ((0 : Nat) : Int) := by
      show (0 : Int) + s._tx = _
      rw [htx]; rfl
    have hfy : (0 : Int) + (focusOnLine s 1)._ty = ((8 : Nat) : Int) := by
      show (0 : Int) + (if (1 : Int) = NoFocus then 0 else 8 * 1) = _
      rw [if_neg (by decide)]; rfl
    have hdraw := drawPixel_translated cf hclip hfx hfy hx hy hc 1
    have h0x : (0 : Int) + ({ s with _ty := 0 } : State)._tx = ((0 : Nat) : Int) := by
      show (0 : Int) + s._tx = _
      rw [htx]; rfl
    have h0y : (8 : Int) + ({ s with _ty := 0 } : State)._ty = ((8 : Nat) : Int) := rfl
    have hdraw0 := drawPixel_translated c0 hclip h0x h0y hx hy hc 1
    refine ⟨?_, ?_, ?_⟩
    · rw [hdraw, hdraw0]
      rfl
    · rw [hdraw]
      exact readPixel_written cf hx hy hc 1
    · rw [hdraw]
      exact readPixel_written_other cf hpos hnd hx hy 1 hx hy0 (by decide)
  · intro s
    unfold focusedHeight
    exact ⟨fun hne => if_neg hne, fun he => if_pos he⟩
  · intro s
    constructor <;> simp [focusedHeight, focusOnLine, NoFocus]
  · intro s x y color
    refine ⟨?_, rfl, rfl⟩
    obtain ⟨bm, hbm⟩ := drawPixel_frame (focusOnLine s 1) x y color
    show (drawPixel (focusOnLine s 1) x y color).focusedLine = 1
    rw [hbm]
    rfl
  · intro s hf hty
    refine ⟨rfl, ?_⟩
    cases s
    simp only [NoFocus] at hf hty
    subst hf hty
    rfl

/-- An instance of the focus: the 1 by 2 grid, focus on row 1, a draw at `(0, 0)`. -/
theorem focus_isolation_witness :
    (Configured demo1x2 1 2 ∧ demo1x2.matrixPosition.Perm (List.range (1 * 2)) ∧ 2 ≤ 2) ∧
      readPixel (drawPixel (focusOnLine demo1x2 1) 0 0 1) 0 8 = 1 ∧
      (swapFocus (focusOnLine demo1x2 1) (-1)).2 = demo1x2 :=
  ⟨⟨demo1x2_configured, List.Perm.refl _, by decide⟩,
   (focus_isolation.1 demo1x2 1 2 demo1x2_configured (List.Perm.refl _) (by decide) rfl rfl
     (by decide)).2.1,
   (focus_isolation.2.2.2.2 demo1x2 rfl rfl).2⟩

theorem offset_closed_form {h v ci : Nat} (q : Nat × Nat) (hh : 1 ≤ h) (hv : v ≤ 31)
    (hc : ci < h * v) (hq : q.1 < 8 ∧ q.2 < 8) :
    q.1 + (ci - ci / h * h) * 8 + 8 * h * (wrap8 ((q.2 : Int) + ((ci / h * 8 : Nat) : Int)) / 8) =
      8 * ci + q.1 := by
  have hdm : h * (ci / h) + ci % h = ci := Nat.div_add_mod ci h
  have hdlt : ci / h < v := by
    rw [Nat.div_lt_iff_lt_mul (by omega)]
    rw [Nat.mul_comm]; exact hc
  have hsub : ci - ci / h * h = ci % h := by
    rw [Nat.mul_comm]; omega
  have hy2 : wrap8 ((q.2 : Int) + ((ci / h * 8 : Nat) : Int)) = 8 * (ci / h) + q.2 := by
    unfold wrap8; omega
  have hdiv : (8 * (ci / h) + q.2) / 8 = ci / h := by omega
  have hmul : 8 * h * (ci / h) = 8 * (h * (ci / h)) := by ring
  rw [hy2, hsub, hdiv, hmul]
  omega

/-- C17: the buffer and table indices stay in bounds. On a grid of 1 to 31 modules whose
position entries are all below the number of modules, for every module rotation table
content, every canvas rotation and all coordinates `(xx, yy)`, 16-bit or not: `byteForPixel`
returns null, or it returns a byte offset strictly below `bitmapSize = 8n` (and below the
length of the bitmap), having read `matrixPosition` at a grid slot below `n` and
`matrixRotation` at a chain index below `n`. So `drawPixel` and `readPixel` never index
outside the bitmap or the tables. -/
theorem byteForPixel_in_bounds (s : State) (h v : Nat) (c : Configured s h v)
    (hpos : ∀ p ∈ s.matrixPosition, p < h * v) (xx yy : Int) :
    (byteForPixel s xx yy = none ∨
      ∃ off y, byteForPixel s xx yy = some (off, y) ∧
        off < s.bitmapSize ∧ off < s.bitmap.length ∧ s.bitmapSize = 8 * (h * v)) ∧
    (byteForPixel s xx yy ≠ none →
      gridSlot s.hDisplays
          (canvasRotate s.rotation s._width s._height xx (wrap8 yy)).1.toNat
          (canvasRotate s.rotation s._width s._height xx (wrap8 yy)).2 < h * v ∧
      gridSlot s.hDisplays
          (canvasRotate s.rotation s._width s._height xx (wrap8 yy)).1.toNat
          (canvasRotate s.rotation s._width s._height xx (wrap8 yy)).2 <
        s.matrixPosition.length ∧
      s.matrixPosition.getD (gridSlot s.hDisplays
          (canvasRotate s.rotation s._width s._height xx (wrap8 yy)).1.toNat
          (canvasRotate s.rotation s._width s._height xx (wrap8 yy)).2) 0 <
        s.matrixRotation.length) := by
  have hW := c.WIDTH_eq
  have hH := c.HEIGHT_eq
  have hD := c.hDisplays_eq
  generalize hp : canvasRotate s.rotation s._width s._height xx (wrap8 yy) = p
  by_cases hcond : p.1 < 0 ∨ p.1 ≥ (s.WIDTH : Int) ∨ (p.2 : Int) < 0 ∨ (p.2 : Int) ≥ (s.HEIGHT : Int)
  · have hnone : byteForPixel s xx yy = none := by
      unfold byteForPixel
      simp only [hp]
      rw [if_pos hcond]
    exact ⟨Or.inl hnone, fun hne => absurd hnone hne⟩
  · have hx : p.1.toNat < 8 * h := by omega
    have hy : p.2 < 8 * v := by omega
    have hslot : gridSlot s.hDisplays p.1.toNat p.2 < h * v := by
      rw [hD]; exact gridSlot_lt hx hy
    have hci : chainIndex s p.1.toNat p.2 < h * v := chainIndex_lt c hpos hx hy
    have hq := moduleRotate_lt (s.matrixRotation.getD (chainIndex s p.1.toNat p.2) 0)
      (Nat.mod_lt p.1.toNat (by norm_num : 8 > 0)) (Nat.mod_lt p.2 (by norm_num : 8 > 0))
    have hsome : byteForPixel s xx yy =
        some (8 * chainIndex s p.1.toNat p.2 +
            (moduleRotate (s.matrixRotation.getD (chainIndex s p.1.toNat p.2) 0)
              (p.1.toNat % 8) (p.2 % 8)).1,
          wrap8 (((moduleRotate (s.matrixRotation.getD (chainIndex s p.1.toNat p.2) 0)
              (p.1.toNat % 8) (p.2 % 8)).2 : Int) +
            ((chainIndex s p.1.toNat p.2 / s.hDisplays * 8 : Nat) : Int))) := by
      unfold byteForPixel
      simp only [hp]
      rw [if_neg hcond]
      have hcidef : s.matrixPosition.getD (gridSlot s.hDisplays p.1.toNat p.2) 0 =
          chainIndex s p.1.toNat p.2 := rfl
      rw [hcidef, hW, hD, offset_closed_form _ c.h_pos c.v_le hci hq]
    refine ⟨Or.inr ⟨_, _, hsome, ?_, ?_, c.bitmapSize_eq⟩, fun _ => ⟨hslot, ?_, ?_⟩⟩
    · rw [c.bitmapSize_eq]; omega
    · rw [c.bitmap_len]; omega
    · rw [c.position_len]; exact hslot
    · rw [c.rotation_len]; exact hci

/-- An instance of the bounds: the coordinates `(0, 256)`, outside the 8 by 8 canvas of a
single module, for which `byteForPixel` does return a pointer. -/
theorem byteForPixel_in_bounds_witness :
    Configured demo11 1 1 ∧ byteForPixel demo11 0 256 ≠ none ∧
      gridSlot demo11.hDisplays
          (canvasRotate demo11.rotation demo11._width demo11._height 0 (wrap8 256)).1.toNat
          (canvasRotate demo11.rotation demo11._width demo11._height 0 (wrap8 256)).2 < 1 * 1 :=
  ⟨demo11_configured, by decide,
   ((byteForPixel_in_bounds demo11 1 1 demo11_configured (by decide) 0 256).2 (by decide)).1⟩

theorem spiLoop_once (opcode data : Nat) (bitmap : List Nat) (end_ fuel start : Nat)
    (h : ¬ wrap8 ((start : Int) - 8) > end_) :
    spiLoop opcode data bitmap end_ (fuel + 1) start =
      some [BusEvent.transfer opcode,
        BusEvent.transfer (transferData opcode data bitmap (wrap8 ((start : Int) - 8)))] := by
  simp only [spiLoop, if_neg h, transferData]

theorem spiLoop_rounds (opcode data : Nat) (bitmap : List Nat) (e size : Nat)
    (he : e < 256) (hs : size % 8 = 0) :
    ∃ (k : Nat) (l : List BusEvent), 1 ≤ k ∧ k ≤ 32 ∧ l.length = 2 * k ∧
      ∀ fuel, 32 ≤ fuel →
        spiLoop opcode data bitmap e fuel (wrap8 ((size : Int) + (e : Int))) = some l := by
  by_cases hgt : wrap8 (((wrap8 ((size : Int) + (e : Int)) : Nat) : Int) - 8) > e
  · have hex : ∃ j, wrap8 (((wrap8 ((size : Int) + (e : Int)) : Nat) : Int) - 8) = e + 8 * j ∧
        j ≤ 31 := by
      refine ⟨(wrap8 (((wrap8 ((size : Int) + (e : Int)) : Nat) : Int) - 8) - e) / 8, ?_, ?_⟩
      · unfold wrap8 at hgt ⊢; omega
      · unfold wrap8; omega
    obtain ⟨j, hj, hjle⟩ := hex
    refine ⟨j + 1,
      (List.range (j + 1)).flatMap (fun k =>
        [BusEvent.transfer opcode,
         BusEvent.transfer (transferData opcode data bitmap (e + 8 * (j - k)))]),
      by omega, by omega, pairs_length opcode _ _, ?_⟩
    intro fuel hfuel
    exact spiLoop_run opcode data bitmap e j fuel _ (by omega) (by unfold wrap8; omega) hj
  · refine ⟨1,
      [BusEvent.transfer opcode,
        BusEvent.transfer (transferData opcode data bitmap
          (wrap8 (((wrap8 ((size : Int) + (e : Int)) : Nat) : Int) - 8)))],
      le_refl 1, by omega, rfl, ?_⟩
    intro fuel hfuel
    obtain ⟨f, rfl⟩ : ∃ f, fuel = f + 1 := ⟨fuel - 1, by omega⟩
    exact spiLoop_once opcode data bitmap e f _ hgt

theorem writeFor_run :
    ∀ (row fuel : Nat) (s : State), row ≤ 8 → row < fuel → s.bitmapSize % 8 = 0 →
      ∃ t, writeFor fuel row s = some (t, row) ∧ writeLoop row s = some t := by
  intro row
  induction row with
  | zero =>
    intro fuel s _ hfuel _
    obtain ⟨f, rfl⟩ : ∃ f, fuel = f + 1 := ⟨fuel - 1, by omega⟩
    exact ⟨s, by simp [writeFor, OP_DIGIT0], rfl⟩
  | succ row ih =>
    intro fuel s hrow hfuel hs
    obtain ⟨f, rfl⟩ : ∃ f, fuel = f + 1 := ⟨fuel - 1, by omega⟩
    obtain ⟨t1, ht1, hb⟩ := spiTransfer_runs (row + 1) 0 s hs
    simp only at ht1
    obtain ⟨t, ht, hw⟩ := ih f t1 (by omega) (by omega) (by rw [hb.1]; exact hs)
    have hdec : wrap8 (((row + 1 : Nat) : Int) - 1) = row := by unfold wrap8; omega
    refine ⟨t, ?_, ?_⟩
    · simp only [writeFor, OP_DIGIT0, ge_iff_le, Nat.le_add_left, if_true, ht1, hdec, ht,
        Option.map_some']
    · simp only [writeLoop, ht1, Option.some_bind, hw]

/-- C18: the transfer loops terminate under 8-bit arithmetic. For every opcode byte and every
`bitmapSize` that is a multiple of 8, the `do ... while` loop of `spiTransfer` leaves after `k`
rounds with `1 <= k <= 32`, each round sending two bytes, and more fuel than 32 changes
nothing; so `spiTransfer` returns. The `for` loop of `write()`, with its 8-bit counter starting
at 8 and running while `row >= 1`, leaves after exactly 8 rounds, given any fuel above 8, in
the state that `write()` returns. -/
theorem transfer_loops_terminate :
    (∀ (opcode data size : Nat) (bitmap : List Nat), size % 8 = 0 →
      ∃ (k : Nat) (l : List BusEvent), 1 ≤ k ∧ k ≤ 32 ∧ l.length = 2 * k ∧
        ∀ fuel, 32 ≤ fuel →
          spiLoop opcode data bitmap (wrap8 ((opcode : Int) - (OP_DIGIT0 : Int))) fuel
            (wrap8 ((size : Int) + (wrap8 ((opcode : Int) - (OP_DIGIT0 : Int)) : Int))) =
              some l) ∧
    (∀ (s : State) (opcode data : Nat), s.bitmapSize % 8 = 0 →
      ∃ t, spiTransfer s opcode data = some t) ∧
    (∀ (s : State) (fuel : Nat), s.bitmapSize % 8 = 0 → 8 < fuel →
      ∃ t, writeFor fuel OP_DIGIT7 s = some (t, 8) ∧ write s = some t) := by
  refine ⟨?_, ?_, ?_⟩
  · intro opcode data size bitmap hs
    exact spiLoop_rounds opcode data bitmap _ size (by unfold wrap8; omega) hs
  · intro s opcode data hs
    obtain ⟨t, ht, _⟩ := spiTransfer_runs opcode data s hs
    exact ⟨t, ht⟩
  · intro s fuel hs hfuel
    exact writeFor_run 8 fuel s (le_refl 8) hfuel hs

/-- An instance of the termination: a `bitmapSize` of 0 with opcode 1 takes all 32 rounds, and
`write()` on the chain of 3 modules takes 8 rounds. -/
theorem transfer_loops_terminate_witness :
    (0 % 8 = 0 ∧
      (spiLoop 1 0 [] (wrap8 ((1 : Int) - (OP_DIGIT0 : Int))) 32
        (wrap8 ((0 : Int) + (wrap8 ((1 : Int) - (OP_DIGIT0 : Int)) : Int)))).map List.length =
          some (2 * 32) ∧
      ∃ (k : Nat) (l : List BusEvent), 1 ≤ k ∧ k ≤ 32 ∧ l.length = 2 * k ∧
        ∀ fuel, 32 ≤ fuel →
          spiLoop 1 0 [] (wrap8 (((1 : Nat) : Int) - (OP_DIGIT0 : Int))) fuel
            (wrap8 (((0 : Nat) : Int) + (wrap8 (((1 : Nat) : Int) - (OP_DIGIT0 : Int)) : Int))) =
              some l) ∧
    (demo3x1.bitmapSize % 8 = 0 ∧ 8 < 9 ∧
      ∃ t, writeFor 9 OP_DIGIT7 demo3x1 = some (t, 8) ∧ write demo3x1 = some t) :=
  ⟨⟨by decide, by decide, transfer_loops_terminate.1 1 0 0 [] (by decide)⟩,
   ⟨by decide, by decide, transfer_loops_terminate.2.2 demo3x1 9 (by decide) (by decide)⟩⟩

end Max72xxPanel
